import Mathlib

/-!
Verification of the multi-exchange trading execution and portfolio-aggregation
engine. Each TypeScript component relevant to the checked claims is shallowly
embedded: JavaScript numbers are modelled as exact rationals (`ℚ`), fallible
asynchronous calls as `Except String`, JavaScript `Map`s as insertion-ordered
association lists, and the stateful classes as explicit state-passing
functions. The embedded functions keep the names of their sources:
`validateOrder` (RiskManager), `placeOrder` (ExecutionEngine),
`fetchPortfolioSnapshot` / snapshot history (PortfolioManager),
`aggregateBalances` / `calculateAssetAllocation` / `calculateExchangeAllocation`
/ `createSnapshot` (PortfolioAggregator), `processSnapshot` / `emitAlert`
(RealtimeMonitor), and `buildQueryString` / `generateSignature` /
`authenticatedRequest` signing (BinanceConnector).
-/

namespace Engine

/-- Order side, the `'buy' | 'sell'` union of the source. -/
inductive Side where
| buy
| sell
deriving DecidableEq, Repr

/-- Order type, the `'market' | 'limit'` union of the source. -/
inductive OrderType where
| market
| limit
deriving DecidableEq, Repr

/-- Account type tag carried on balances (`'spot' | 'futures'`). -/
inductive AccountType where
| spot
| futures
deriving DecidableEq, Repr

/-- `OrderParams` of `types/index.ts`, restricted to the fields the embedded
functions read (symbol, side, type, quantity, optional price); the remaining
optional routing flags are never consulted by the verified code paths. An
absent `price` is `none`. -/
structure OrderParams where
  symbol : String
  side : Side
  type : OrderType
  quantity : ℚ
  price : Option ℚ := none
deriving DecidableEq, Repr

/-- `UnifiedBalance` of `types/index.ts`. -/
structure UnifiedBalance where
  asset : String
  total : ℚ
  available : ℚ
  usdValue : ℚ
  exchange : String
  timestamp : ℤ
  accountType : Option AccountType := none
deriving DecidableEq, Repr

/-- Position side after normalization (`'long' | 'short'`). -/
inductive PosSide where
| long
| short
deriving DecidableEq, Repr

/-- `UnifiedPosition` of `types/index.ts`. -/
structure UnifiedPosition where
  symbol : String
  side : PosSide
  size : ℚ
  entryPrice : ℚ
  markPrice : ℚ
  unrealizedPnl : ℚ
  leverage : ℚ
  exchange : String
  timestamp : ℤ
deriving DecidableEq, Repr

/-- Per-asset allocation entry (`AssetAllocation` of `types/index.ts`); the
`exchanges` breakdown is the insertion-ordered list of `{exchange, usdValue}`
pairs. -/
structure AssetAllocation where
  asset : String
  totalUsdValue : ℚ
  percentage : ℚ
  exchanges : List (String × ℚ)
deriving DecidableEq, Repr

/-- Per-exchange allocation entry (`ExchangeAllocation` of `types/index.ts`). -/
structure ExchangeAllocation where
  exchange : String
  totalUsdValue : ℚ
  percentage : ℚ
deriving DecidableEq, Repr

/-- `RawBalance` of `types/index.ts` (vendor-native balance). -/
structure RawBalance where
  asset : String
  free : ℚ
  locked : ℚ
  accountType : Option AccountType := none
deriving DecidableEq, Repr

/-- Raw position side (`'long' | 'short' | 'both'`). -/
inductive RawPosSide where
| long
| short
| both
deriving DecidableEq, Repr

/-- `RawPosition` of `types/index.ts` (vendor-native position). -/
structure RawPosition where
  symbol : String
  side : RawPosSide
  size : ℚ
  entryPrice : ℚ
  markPrice : ℚ
  leverage : Option ℚ := none
deriving DecidableEq, Repr

/-- `RawOrder` of `types/index.ts`, restricted to the fields the verified
paths copy through. -/
structure RawOrder where
  symbol : String
  side : Side
  price : ℚ
  quantity : ℚ
  status : String
  timestamp : ℤ
  orderId : String
deriving DecidableEq, Repr

/-- `PortfolioSnapshot` of `types/index.ts`. `change24h` is optional. -/
structure PortfolioSnapshot where
  timestamp : ℤ
  totalNetEquity : ℚ
  totalUnrealizedPnl : ℚ
  assetAllocation : List AssetAllocation
  exchangeAllocation : List ExchangeAllocation
  positions : List UnifiedPosition
  balances : List UnifiedBalance
  change24h : Option ℚ := none
deriving DecidableEq, Repr

/-- `RiskCheckResult` of `types/index.ts`: `reason` and `warnings` are the
optional fields the source leaves `undefined` when empty. -/
structure RiskCheckResult where
  allowed : Bool
  reason : Option String := none
  warnings : Option (List String) := none
deriving DecidableEq, Repr

/-- `RiskLimits` of `types/index.ts`. -/
structure RiskLimits where
  maxOrderSize : ℚ
  maxPositionSize : ℚ
  maxDrawdown : ℚ
  minBalance : ℚ
deriving DecidableEq, Repr

/-- The defaults installed by `new RiskManager()` with no argument
(`riskManager.ts` constructor): $100k max order, $500k max position,
−10% max drawdown, $100 minimum balance. -/
def defaultRiskLimits : RiskLimits :=
  { maxOrderSize := 100000
    maxPositionSize := 500000
    maxDrawdown := -1/10
    minBalance := 100 }

/-- Model of JavaScript `Number.prototype.toFixed(2)` on an exact rational:
round the magnitude to two decimal places (half up) and print with exactly two
fraction digits. Only used to build the human-readable message strings; no
claim depends on the digits themselves. -/
def qToFixed2 (q : ℚ) : String :=
  let c : ℤ := Int.floor (|q| * 100 + 1/2)
  let intPart := c / 100
  let frac := c % 100
  (if q < 0 then "-" else "") ++ toString intPart ++ "." ++
    (if frac < 10 then "0" else "") ++ toString frac

/-- Model of JavaScript default number-to-string coercion for the rationals
that appear in interpolated messages (used where the source interpolates a
number without `toFixed`). Integral values print as integers. -/
def qToString (q : ℚ) : String :=
  if q.den = 1 then toString q.num else toString q.num ++ "/" ++ toString q.den

/-- Model of JavaScript `String.prototype.toLowerCase` for the ASCII strings
the engine handles (exchange names, symbols): lowercase every character. -/
def jsToLower (s : String) : String := String.mk (s.data.map Char.toLower)

/-- Model of JavaScript `String.prototype.toUpperCase` for ASCII asset
symbols: uppercase every character. -/
def jsToUpper (s : String) : String := String.mk (s.data.map Char.toUpper)

/-- Model of JavaScript `Array.prototype.join(sep)`: the elements interleaved
with the separator (empty string on the empty array). -/
def joinSep (sep : String) : List String → String
  | [] => ""
  | [x] => x
  | x :: y :: xs => x ++ sep ++ joinSep sep (y :: xs)

/-- The `{size, value}` position summary handed to `validateOrder` by the
execution engine. -/
structure PositionRef where
  size : ℚ
  value : ℚ
deriving DecidableEq, Repr

/-- The notional used by `RiskManager.validateOrder`: `quantity * price` when
a price is present, `0` otherwise (market orders carry no price). -/
def orderValueOf (orderParams : OrderParams) : ℚ :=
  match orderParams.price with
  | some p => orderParams.quantity * p
  | none => 0

/-- The pushes into the `errors` array of the order-size check of
`validateOrder` (`// Check order size`). -/
def sizeErrors (limits : RiskLimits) (orderParams : OrderParams) : List String :=
  let orderValue := orderValueOf orderParams
  if orderValue > limits.maxOrderSize then
    ["Order size ($" ++ qToFixed2 orderValue ++ ") exceeds maximum ($" ++
      qToFixed2 limits.maxOrderSize ++ ")"]
  else []

/-- The pushes of the position-size check of `validateOrder`
(`// Check position size`), evaluated only when a current position was
supplied. -/
def positionErrors (limits : RiskLimits) (orderParams : OrderParams)
    (currentPosition : Option PositionRef) : List String :=
  match currentPosition with
  | some cp =>
    if cp.value + orderValueOf orderParams > limits.maxPositionSize then
      ["Position size would exceed maximum ($" ++ qToFixed2 limits.maxPositionSize ++ ")"]
    else []
  | none => []

/-- The pushes of the balance-sufficiency check of `validateOrder`
(`// Check balance sufficiency`). -/
def balanceErrors (orderParams : OrderParams) (availableBalance : ℚ) : List String :=
  if orderParams.side = Side.buy ∧ orderValueOf orderParams > availableBalance then
    ["Insufficient balance for order"]
  else []

/-- The pushes of the portfolio-drawdown check of `validateOrder`
(`// Check portfolio drawdown`), evaluated only when a snapshot is loaded. -/
def drawdownErrors (limits : RiskLimits)
    (portfolioSnapshot : Option PortfolioSnapshot) : List String :=
  match portfolioSnapshot with
  | some s =>
    let drawdown := s.totalUnrealizedPnl / s.totalNetEquity
    if drawdown < limits.maxDrawdown then
      ["Portfolio drawdown (" ++ qToFixed2 (drawdown * 100) ++ "%) exceeds limit (" ++
        qToFixed2 (limits.maxDrawdown * 100) ++ "%)"]
    else []
  | none => []

/-- The `errors` array of `validateOrder` after all four error checks ran, in
source order. -/
def riskErrors (limits : RiskLimits) (portfolioSnapshot : Option PortfolioSnapshot)
    (orderParams : OrderParams) (availableBalance : ℚ)
    (currentPosition : Option PositionRef) : List String :=
  sizeErrors limits orderParams ++
    positionErrors limits orderParams currentPosition ++
    balanceErrors orderParams availableBalance ++
    drawdownErrors limits portfolioSnapshot

/-- The `warnings` array of `validateOrder` (`// Check minimum balance`). -/
def riskWarnings (limits : RiskLimits) (availableBalance : ℚ) : List String :=
  if availableBalance < limits.minBalance then
    ["Balance ($" ++ qToFixed2 availableBalance ++ ") is below recommended minimum ($" ++
      qToString limits.minBalance ++ ")"]
  else []

/-- `RiskManager.validateOrder` (`riskManager.ts` lines 62–116). The instance
state (`limits`, the last `updatePortfolioSnapshot` argument) is passed
explicitly. All five checks are evaluated in source order; failing messages
accumulate into `errors`, the minimum-balance check only into `warnings`;
`reason` is the `errors` joined with "; ", left `undefined` (`none`) when no
check failed, and `warnings` is `undefined` when empty. -/
def validateOrder (limits : RiskLimits) (portfolioSnapshot : Option PortfolioSnapshot)
    (orderParams : OrderParams) (availableBalance : ℚ)
    (currentPosition : Option PositionRef) : RiskCheckResult :=
  let errors :=
    riskErrors limits portfolioSnapshot orderParams availableBalance currentPosition
  let warnings := riskWarnings limits availableBalance
  { allowed := errors.isEmpty
    reason := if errors.isEmpty then none else some (joinSep "; " errors)
    warnings := if warnings.isEmpty then none else some warnings }

/-- `OrderResult` of `types/index.ts`. -/
structure OrderResult where
  orderId : String
  symbol : String
  side : Side
  type : String
  status : String
  price : ℚ
  quantity : ℚ
  filledQuantity : ℚ
  remainingQuantity : ℚ
  timestamp : ℤ
  exchange : String
deriving DecidableEq, Repr

/-- A trading-capable connector as the execution engine sees it, with each
asynchronous call modelled by its outcome: `Except.error` is a rejected
promise. -/
structure TradingConnectorStub where
  exchangeName : String
  fetchBalances : Except String (List RawBalance)
  fetchPositions : Except String (List RawPosition)
  placeOrder : OrderParams → Except String OrderResult

/-- The collaborator state `ExecutionEngine.placeOrder` runs against:
the registered connector map (keyed by lowercased exchange name), the
portfolio manager's latest snapshot, the risk-manager singleton's previously
stored snapshot, and the outcomes of the order-store write and the event-bus
publish. -/
structure ExecEnv where
  connectors : List (String × TradingConnectorStub)
  latestSnapshot : Option PortfolioSnapshot
  riskSnapshotBefore : Option PortfolioSnapshot
  storeOrder : OrderResult → Except String Unit
  publishUpdate : Except String Unit

/-- Observable side effects of one `placeOrder` run: the order submission to
the exchange, the database write, and the event-bus publish. -/
inductive ExecEff where
| submitted
| stored
| published
deriving DecidableEq, Repr

/-- The quote-asset inference of `ExecutionEngine.placeOrder`: the segment
after `/` when the symbol contains one, otherwise `"USDT"` (both arms of the
source's ternary yield `"USDT"`). -/
def quoteAssetOf (symbol : String) : String :=
  if symbol.contains '/' then (symbol.splitOn "/").getD 1 "" else "USDT"

/-- Balance resolution of `placeOrder`: prefer the snapshot's `available` for
the quote asset on this exchange; when that leaves zero, best-effort
`fetchBalances` (taking `free`), degrading to `0` on failure. -/
def resolveAvailableBalance (env : ExecEnv) (conn : TradingConnectorStub)
    (quoteAsset exchangeLower : String) : ℚ :=
  let fromSnapshot : ℚ :=
    match env.latestSnapshot with
    | some snapshot =>
      match snapshot.balances.find? (fun b =>
          b.asset = quoteAsset ∧ b.exchange = exchangeLower) with
      | some balance => balance.available
      | none => 0
    | none => 0
  if fromSnapshot = 0 then
    match conn.fetchBalances with
    | Except.ok balances =>
      match balances.find? (fun b => b.asset = quoteAsset) with
      | some balance => balance.free
      | none => 0
    | Except.error _ => 0
  else fromSnapshot

/-- Position resolution of `placeOrder`: best-effort `fetchPositions`, taking
the entry for the order's symbol, degrading to `undefined` on failure. -/
def resolveCurrentPosition (conn : TradingConnectorStub) (symbol : String) :
    Option RawPosition :=
  match conn.fetchPositions with
  | Except.ok positions => positions.find? (fun p => p.symbol = symbol)
  | Except.error _ => none

/-- The snapshot the risk-manager singleton holds during the risk check: the
portfolio manager's latest snapshot when present (`updatePortfolioSnapshot`
is called only then), otherwise whatever it held before. -/
def execRiskSnapshot (env : ExecEnv) : Option PortfolioSnapshot :=
  match env.latestSnapshot with
  | some snapshot => some snapshot
  | none => env.riskSnapshotBefore

/-- The risk check `placeOrder` performs, with the engine's singleton
`riskManager` default limits and the `{size, value}` summary of the resolved
position. -/
def placeOrderRiskCheck (env : ExecEnv) (conn : TradingConnectorStub)
    (exchange : String) (orderParams : OrderParams) : RiskCheckResult :=
  validateOrder defaultRiskLimits (execRiskSnapshot env) orderParams
    (resolveAvailableBalance env conn (quoteAssetOf orderParams.symbol)
      (jsToLower exchange))
    ((resolveCurrentPosition conn orderParams.symbol).map fun cp =>
      { size := cp.size, value := cp.size * cp.markPrice })

/-- `ExecutionEngine.placeOrder` (`executor.ts` lines 41–149), returning the
caller-visible outcome together with the trace of side effects. Database and
event-bus failures after a successful exchange submission are caught and
swallowed; a risk rejection throws before any submission. -/
def placeOrder (env : ExecEnv) (exchange : String) (orderParams : OrderParams) :
    Except String OrderResult × List ExecEff :=
  match List.lookup (jsToLower exchange) env.connectors with
  | none =>
    (Except.error ("Exchange " ++ exchange ++ " not registered or does not support trading"),
      [])
  | some conn =>
    let riskCheck := placeOrderRiskCheck env conn exchange orderParams
    if riskCheck.allowed = false then
      (Except.error ("Order rejected by risk manager: " ++ riskCheck.reason.getD "undefined"),
        [])
    else
      match conn.placeOrder orderParams with
      | Except.error e =>
        (Except.error ("Failed to place order on " ++ exchange ++ ": " ++ e),
          [ExecEff.submitted])
      | Except.ok orderResult =>
        let storeEff :=
          match env.storeOrder orderResult with
          | Except.ok _ => [ExecEff.stored]
          | Except.error _ => []
        let publishEff :=
          match env.publishUpdate with
          | Except.ok _ => [ExecEff.published]
          | Except.error _ => []
        (Except.ok orderResult, ExecEff.submitted :: (storeEff ++ publishEff))

/-- `UnifiedTrade` of `types/index.ts` (only threaded through
`createSnapshot`, which ignores it). -/
structure UnifiedTrade where
  symbol : String
  side : Side
  price : ℚ
  quantity : ℚ
  realizedPnl : ℚ
  fee : ℚ
  timestamp : ℤ
  exchange : String
  tradeId : String
deriving DecidableEq, Repr

/-- `BaseNormalizer.normalizeBalance` (`normalizer/index.ts`): total is
`free + locked` (the source's `|| 0` guards are identities on rationals),
available is `free`, `usdValue = total * usdPrice`, asset uppercased,
timestamp the wall clock at normalization. -/
def normalizeBalance (raw : RawBalance) (exchange : String) (usdPrice : ℚ)
    (now : ℤ) : UnifiedBalance :=
  let total := raw.free + raw.locked
  { asset := jsToUpper raw.asset
    total := total
    available := raw.free
    usdValue := total * usdPrice
    exchange := exchange
    timestamp := now
    accountType := raw.accountType }

/-- `BaseNormalizer.normalizePosition`: a combined `'both'` side is inferred
from the sign of the size, the size is taken absolute, and
`unrealizedPnl = (mark − entry) × size × (±1)`; a missing or zero leverage
(`raw.leverage || 1`) becomes 1. -/
def normalizePosition (raw : RawPosition) (exchange : String) (now : ℤ) :
    UnifiedPosition :=
  let side : PosSide :=
    match raw.side with
    | RawPosSide.both => if raw.size ≥ 0 then PosSide.long else PosSide.short
    | RawPosSide.long => PosSide.long
    | RawPosSide.short => PosSide.short
  let size := |raw.size|
  { symbol := raw.symbol
    side := side
    size := size
    entryPrice := raw.entryPrice
    markPrice := raw.markPrice
    unrealizedPnl := (raw.markPrice - raw.entryPrice) * size *
      (match side with | PosSide.long => 1 | PosSide.short => -1)
    leverage :=
      match raw.leverage with
      | some l => if l = 0 then 1 else l
      | none => 1
    exchange := exchange
    timestamp := now }

/-- The stablecoin whitelist of `PortfolioManager.getUsdPrice`. -/
def stablecoins : List String :=
  ["USDT", "USDC", "BUSD", "DAI", "TUSD", "USDP", "FDUSD"]

/-- `PortfolioManager.getUsdPrice`: recognized stablecoins are worth $1,
every other asset $0 (documented limitation absent a live price feed). -/
def getUsdPrice (asset : String) : ℚ :=
  if jsToUpper asset ∈ stablecoins then 1 else 0

/-- The string key `PortfolioAggregator` files balances under:
`exchange + ":" + asset`. -/
def balanceKey (b : UnifiedBalance) : String := b.exchange ++ ":" ++ b.asset

/-- One step of the `aggregateBalances` fold: merge the balance into the
entry with its key (summing total, available and usdValue, keeping the first
occurrence's remaining fields and position), or append a copy. -/
def aggStep : List UnifiedBalance → UnifiedBalance → List UnifiedBalance
  | [], balance => [balance]
  | existing :: rest, balance =>
    if balanceKey existing = balanceKey balance then
      { existing with
          total := existing.total + balance.total
          available := existing.available + balance.available
          usdValue := existing.usdValue + balance.usdValue } :: rest
    else existing :: aggStep rest balance

/-- `PortfolioAggregator.aggregateBalances` (`aggregator.ts` lines 20–38):
fold the balances through an insertion-ordered map keyed by
`exchange:asset` and return its values. -/
def aggregateBalances (balances : List UnifiedBalance) : List UnifiedBalance :=
  balances.foldl aggStep []

/-- Model of `Array.prototype.sort((a, b) => key(b) - key(a))`: a stable
sort descending by the key. -/
def sortByDesc {α : Type} (key : α → ℚ) (l : List α) : List α :=
  List.insertionSort (fun a b => key b ≤ key a) l

/-- The per-asset accumulator of `calculateAssetAllocation`:
`{ totalUsdValue, exchanges }` with the per-exchange breakdown as an
insertion-ordered map. -/
structure AssetAccum where
  totalUsdValue : ℚ
  exchanges : List (String × ℚ)
deriving DecidableEq, Repr

/-- The `exchanges.set(exchange, (exchanges.get(exchange) || 0) + usdValue)`
update: add into the existing entry in place or append. -/
def exchAdd : List (String × ℚ) → String → ℚ → List (String × ℚ)
  | [], exchange, usdValue => [(exchange, usdValue)]
  | (e, v) :: rest, exchange, usdValue =>
    if e = exchange then (e, v + usdValue) :: rest
    else (e, v) :: exchAdd rest exchange usdValue

/-- Merge one positive-value balance into the asset map of
`calculateAssetAllocation`. -/
def assetInsert : List (String × AssetAccum) → UnifiedBalance → List (String × AssetAccum)
  | [], balance =>
    [(balance.asset,
      { totalUsdValue := balance.usdValue
        exchanges := [(balance.exchange, balance.usdValue)] })]
  | (a, acc) :: rest, balance =>
    if a = balance.asset then
      (a, { totalUsdValue := acc.totalUsdValue + balance.usdValue
            exchanges := exchAdd acc.exchanges balance.exchange balance.usdValue }) :: rest
    else (a, acc) :: assetInsert rest balance

/-- One step of the `calculateAssetAllocation` fold: balances with
non-positive `usdValue` are skipped (`if (balance.usdValue <= 0) return`). -/
def assetStep (m : List (String × AssetAccum)) (balance : UnifiedBalance) :
    List (String × AssetAccum) :=
  if balance.usdValue ≤ 0 then m else assetInsert m balance

/-- `PortfolioAggregator.calculateAssetAllocation` (`aggregator.ts` lines
43–80): group positive-usdValue balances by asset, percentage against the
grouped total (0 when that total is not positive), sorted descending by
`totalUsdValue`. -/
def calculateAssetAllocation (balances : List UnifiedBalance) : List AssetAllocation :=
  let assetMap := balances.foldl assetStep []
  let totalUsd := (assetMap.map (fun ad => ad.2.totalUsdValue)).sum
  sortByDesc (fun a => a.totalUsdValue)
    (assetMap.map (fun ad =>
      { asset := ad.1
        totalUsdValue := ad.2.totalUsdValue
        percentage := if totalUsd > 0 then ad.2.totalUsdValue / totalUsd * 100 else 0
        exchanges := ad.2.exchanges }))

/-- One step of the `calculateExchangeAllocation` fold: every balance's
`usdValue` (positive or not) is added to its exchange's entry. -/
def exchangeStep : List (String × ℚ) → UnifiedBalance → List (String × ℚ)
  | [], balance => [(balance.exchange, balance.usdValue)]
  | (e, v) :: rest, balance =>
    if e = balance.exchange then (e, v + balance.usdValue) :: rest
    else (e, v) :: exchangeStep rest balance

/-- `PortfolioAggregator.calculateExchangeAllocation` (`aggregator.ts` lines
85–102): sum every balance's usdValue per exchange, percentage against the
overall total (0 when that total is not positive), sorted descending by
`totalUsdValue`. -/
def calculateExchangeAllocation (balances : List UnifiedBalance) : List ExchangeAllocation :=
  let exchangeMap := balances.foldl exchangeStep []
  let totalUsd := (exchangeMap.map (fun ev => ev.2)).sum
  sortByDesc (fun a => a.totalUsdValue)
    (exchangeMap.map (fun ev =>
      { exchange := ev.1
        totalUsdValue := ev.2
        percentage := if totalUsd > 0 then ev.2 / totalUsd * 100 else 0 }))

/-- `PortfolioAggregator.calculateTotalNetEquity`: sum of usdValue. -/
def calculateTotalNetEquity (balances : List UnifiedBalance) : ℚ :=
  (balances.map (fun b => b.usdValue)).sum

/-- `PortfolioAggregator.calculateTotalUnrealizedPnl`: sum of unrealizedPnl. -/
def calculateTotalUnrealizedPnl (positions : List UnifiedPosition) : ℚ :=
  (positions.map (fun p => p.unrealizedPnl)).sum

/-- `PortfolioAggregator.createSnapshot` (`aggregator.ts` lines 121–157) with
the wall clock explicit: aggregate the balances, total them, and compute
`change24h` only when a previous snapshot was supplied whose age is at most
24 hours (as a percentage of the previous equity, 0 when that equity is not
positive). The order and trade arguments are accepted and ignored exactly as
in the source. -/
def createSnapshot (now : ℤ) (balances : List UnifiedBalance)
    (positions : List UnifiedPosition) (orders : List (RawOrder × String))
    (trades : List UnifiedTrade) (previousSnapshot : Option PortfolioSnapshot) :
    PortfolioSnapshot :=
  let aggregatedBalances := aggregateBalances balances
  let totalNetEquity := calculateTotalNetEquity aggregatedBalances
  let change24h : Option ℚ :=
    match previousSnapshot with
    | some prev =>
      if now - prev.timestamp ≤ 24 * 60 * 60 * 1000 then
        some (if prev.totalNetEquity > 0 then
          (totalNetEquity - prev.totalNetEquity) / prev.totalNetEquity * 100
        else 0)
      else none
    | none => none
  { timestamp := now
    totalNetEquity := totalNetEquity
    totalUnrealizedPnl := calculateTotalUnrealizedPnl positions
    assetAllocation := calculateAssetAllocation aggregatedBalances
    exchangeAllocation := calculateExchangeAllocation aggregatedBalances
    positions := positions
    balances := aggregatedBalances
    change24h := change24h }

/-- An exchange connector as the portfolio manager sees it, each fetch
modelled by its outcome. -/
structure ExchangeConnectorStub where
  exchangeName : String
  fetchBalances : Except String (List RawBalance)
  fetchPositions : Except String (List RawPosition)
  fetchOpenOrders : Except String (List RawOrder)

/-- One connector's contribution to a snapshot fetch: when all three fetches
succeed their results are normalized (balances priced by `getUsdPrice`,
orders only tagged with the exchange); when any fetch rejects, the
per-connector `catch` logs and contributes nothing. -/
def connectorFetch (now : ℤ) (c : ExchangeConnectorStub) :
    List UnifiedBalance × List UnifiedPosition × List (RawOrder × String) :=
  match c.fetchBalances, c.fetchPositions, c.fetchOpenOrders with
  | Except.ok rawBalances, Except.ok rawPositions, Except.ok orders =>
    (rawBalances.map (fun rb =>
        normalizeBalance rb c.exchangeName (getUsdPrice rb.asset) now),
     rawPositions.map (fun rp => normalizePosition rp c.exchangeName now),
     orders.map (fun o => (o, c.exchangeName)))
  | _, _, _ => ([], [], [])

/-- The `allBalances` array after the fan-out settled. -/
def collectedBalances (now : ℤ) (connectors : List ExchangeConnectorStub) :
    List UnifiedBalance :=
  (connectors.map (fun c => (connectorFetch now c).1)).flatten

/-- The `allPositions` array after the fan-out settled. -/
def collectedPositions (now : ℤ) (connectors : List ExchangeConnectorStub) :
    List UnifiedPosition :=
  (connectors.map (fun c => (connectorFetch now c).2.1)).flatten

/-- The `allOrders` array after the fan-out settled. -/
def collectedOrders (now : ℤ) (connectors : List ExchangeConnectorStub) :
    List (RawOrder × String) :=
  (connectors.map (fun c => (connectorFetch now c).2.2)).flatten

/-- The `previousSnapshot` expression of `fetchPortfolioSnapshot`
(`manager.ts` lines 125–126): the last stored snapshot, `undefined` when the
history is empty. -/
def managerPreviousSnapshot (snapshots : List PortfolioSnapshot) :
    Option PortfolioSnapshot :=
  if 0 < snapshots.length then snapshots[snapshots.length - 1]? else none

/-- The history append of `fetchPortfolioSnapshot` (`manager.ts` lines
139–143): push, then `shift()` the oldest entry when the capacity is
exceeded. -/
def pushSnapshot (snapshots : List PortfolioSnapshot) (maxSnapshots : ℕ)
    (snapshot : PortfolioSnapshot) : List PortfolioSnapshot :=
  let pushed := snapshots ++ [snapshot]
  if maxSnapshots < pushed.length then pushed.drop 1 else pushed

/-- The `maxSnapshots` field initializer of `PortfolioManager`. -/
def defaultMaxSnapshots : ℕ := 1000

/-- `PortfolioManager.fetchPortfolioSnapshot` (`manager.ts` lines 63–146)
with the wall clock explicit: fan out to every connector (failures excluded
per connector), aggregate into a snapshot against the most recent stored
snapshot, and append to the bounded history. Returns the snapshot and the
new history. -/
def fetchPortfolioSnapshot (now : ℤ) (connectors : List ExchangeConnectorStub)
    (snapshots : List PortfolioSnapshot) (maxSnapshots : ℕ) :
    PortfolioSnapshot × List PortfolioSnapshot :=
  let snapshot := createSnapshot now (collectedBalances now connectors)
    (collectedPositions now connectors) (collectedOrders now connectors) []
    (managerPreviousSnapshot snapshots)
  (snapshot, pushSnapshot snapshots maxSnapshots snapshot)

/-- `PortfolioManager.getLatestSnapshot`: the last stored snapshot, `null`
when the history is empty. -/
def getLatestSnapshot (snapshots : List PortfolioSnapshot) :
    Option PortfolioSnapshot :=
  if 0 < snapshots.length then snapshots[snapshots.length - 1]? else none

/-- Sum of `usdValue` over the entries of a balance list filed under one
string key — the measure `aggregateBalances` preserves per key. -/
def keyGroupSum (l : List UnifiedBalance) (k : String) : ℚ :=
  ((l.filter (fun b => balanceKey b = k)).map (fun b => b.usdValue)).sum

/-- Number of entries of a balance list filed under one string key. -/
def keyCount (l : List UnifiedBalance) (k : String) : ℕ :=
  (l.filter (fun b => balanceKey b = k)).length

/-- Sum of `usdValue` over the entries of one `(exchange, asset)` group. -/
def pairGroupSum (l : List UnifiedBalance) (ex asset : String) : ℚ :=
  ((l.filter (fun b => b.exchange = ex ∧ b.asset = asset)).map
    (fun b => b.usdValue)).sum

/-- Number of entries of one `(exchange, asset)` group. -/
def pairCount (l : List UnifiedBalance) (ex asset : String) : ℕ :=
  (l.filter (fun b => b.exchange = ex ∧ b.asset = asset)).length

/-- Sum of `usdValue` over the positive-value balances — the total the asset
allocation divides by. -/
def positiveTotal (bs : List UnifiedBalance) : ℚ :=
  ((bs.filter (fun b => 0 < b.usdValue)).map (fun b => b.usdValue)).sum

/-- The alert thresholds of `config.alerts` (`config/index.ts`). -/
structure AlertsConfig where
  largeBalanceChangeThreshold : ℚ
  largePositionThreshold : ℚ
  rapidDrawdownThreshold : ℚ
deriving DecidableEq, Repr

/-- The hard-coded alert configuration: $10000 balance-change threshold,
$50000 position threshold, −5% rapid-drawdown threshold. -/
def configAlerts : AlertsConfig :=
  { largeBalanceChangeThreshold := 10000
    largePositionThreshold := 50000
    rapidDrawdownThreshold := -1/20 }

/-- The alert `type` union of `AlertEvent` in `types/index.ts`. -/
inductive AlertType where
| large_balance_change
| large_position_opening
| rapid_drawdown
| connection_lost
deriving DecidableEq, Repr

/-- The alert `severity` union of `AlertEvent` in `types/index.ts`. -/
inductive AlertSeverity where
| info
| warning
| critical
deriving DecidableEq, Repr

/-- `AlertEvent` of `types/index.ts`. The free-form `data` payload is not
modelled; no verified property reads it. -/
structure AlertEvent where
  type : AlertType
  severity : AlertSeverity
  message : String
  exchange : Option String := none
  timestamp : ℤ
deriving DecidableEq, Repr

/-- JavaScript `Map.prototype.set` on an insertion-ordered association list:
replace the value in place when the key exists, append otherwise. -/
def mapSet {β : Type} : List (String × β) → String → β → List (String × β)
  | [], k, v => [(k, v)]
  | (k2, v2) :: rest, k, v =>
    if k2 = k then (k, v) :: rest else (k2, v2) :: mapSet rest k v

/-- The key `RealtimeMonitor` files positions under:
`exchange + ":" + symbol`. -/
def positionKey (p : UnifiedPosition) : String := p.exchange ++ ":" ++ p.symbol

/-- The `RealtimeMonitor` instance state: the prior-balance map, the
prior-position map and the prior total equity. -/
structure MonitorState where
  previousBalances : List (String × UnifiedBalance) := []
  previousPositions : List (String × UnifiedPosition) := []
  previousEquity : ℚ := 0

/-- A fresh `RealtimeMonitor`: empty maps, zero equity. -/
def monitorInitState : MonitorState := {}

/-- The display string of a position side (template interpolation). -/
def posSideStr : PosSide → String
  | PosSide.long => "long"
  | PosSide.short => "short"

/-- The alert the balance check emits for one balance against its prior
record (`monitor.ts` lines 63–83): fires when `|Δusd|` reaches the
threshold, critical when the percentage change (0 when the prior value is
not positive) exceeds 50. -/
def balanceAlert (now : ℤ) (previous balance : UnifiedBalance) :
    Option AlertEvent :=
  let change := |balance.usdValue - previous.usdValue|
  if change ≥ configAlerts.largeBalanceChangeThreshold then
    let changePercent :=
      if previous.usdValue > 0 then change / previous.usdValue * 100 else 0
    some
      { type := AlertType.large_balance_change
        severity := if changePercent > 50 then AlertSeverity.critical
          else AlertSeverity.warning
        message := "Large balance change detected: " ++ balance.asset ++ " on " ++
          balance.exchange ++ ". Change: $" ++ qToFixed2 change ++ " (" ++
          qToFixed2 changePercent ++ "%)"
        exchange := some balance.exchange
        timestamp := now }
  else none

/-- `RealtimeMonitor.checkBalanceChanges` (`monitor.ts` lines 58–88): walk
the snapshot's balances in order, emitting against the current record and
replacing the record per entry (`previousBalances.set` inside the loop).
Returns the updated map and the emitted alerts in order. -/
def checkBalanceChanges (now : ℤ) (prev : List (String × UnifiedBalance)) :
    List UnifiedBalance → List (String × UnifiedBalance) × List AlertEvent
  | [] => (prev, [])
  | balance :: rest =>
    let emitted :=
      match List.lookup (balanceKey balance) prev with
      | some previous => (balanceAlert now previous balance).toList
      | none => []
    let res := checkBalanceChanges now
      (mapSet prev (balanceKey balance) balance) rest
    (res.1, emitted ++ res.2)

/-- `RealtimeMonitor.checkLargePositions` (`monitor.ts` lines 93–119): a
position with no prior record whose notional reaches the threshold emits a
warning; the record is replaced per entry. -/
def checkLargePositions (now : ℤ) (prev : List (String × UnifiedPosition)) :
    List UnifiedPosition → List (String × UnifiedPosition) × List AlertEvent
  | [] => (prev, [])
  | position :: rest =>
    let positionValue := position.size * position.markPrice
    let emitted :=
      match List.lookup (positionKey position) prev with
      | some _ => []
      | none =>
        if positionValue ≥ configAlerts.largePositionThreshold then
          [{ type := AlertType.large_position_opening
             severity := AlertSeverity.warning
             message := "Large position opened: " ++ position.symbol ++ " " ++
               posSideStr position.side ++ " on " ++ position.exchange ++
               ". Value: $" ++ qToFixed2 positionValue
             exchange := some position.exchange
             timestamp := now }]
        else []
    let res := checkLargePositions now
      (mapSet prev (positionKey position) position) rest
    (res.1, emitted ++ res.2)

/-- `RealtimeMonitor.checkRapidDrawdown` (`monitor.ts` lines 124–143): with a
positive prior equity, a relative change at or below the threshold emits a
critical alert. -/
def checkRapidDrawdown (now : ℤ) (previousEquity : ℚ)
    (snapshot : PortfolioSnapshot) : List AlertEvent :=
  if previousEquity > 0 then
    let change := (snapshot.totalNetEquity - previousEquity) / previousEquity
    if change ≤ configAlerts.rapidDrawdownThreshold then
      [{ type := AlertType.rapid_drawdown
         severity := AlertSeverity.critical
         message := "Rapid drawdown detected: Portfolio decreased by " ++
           qToFixed2 (change * 100) ++ "%"
         exchange := none
         timestamp := now }]
    else []
  else []

/-- `RealtimeMonitor.processSnapshot` (`monitor.ts` lines 41–53): run the
three checks in order, then replace the stored equity
(`updatePreviousState`). Returns the new state and the alerts in emission
order. -/
def processSnapshot (now : ℤ) (st : MonitorState)
    (snapshot : PortfolioSnapshot) : MonitorState × List AlertEvent :=
  let balRes := checkBalanceChanges now st.previousBalances snapshot.balances
  let posRes := checkLargePositions now st.previousPositions snapshot.positions
  let ddAlerts := checkRapidDrawdown now st.previousEquity snapshot
  ({ previousBalances := balRes.1
     previousPositions := posRes.1
     previousEquity := snapshot.totalNetEquity },
   balRes.2 ++ posRes.2 ++ ddAlerts)

/-- The outcome of invoking one alert callback inside `emitAlert`: either it
returned normally, or it threw and the per-callback `catch` logged the
error. -/
inductive CallbackOutcome where
| ok
| caught (err : String)
deriving DecidableEq, Repr

/-- Run one callback under `emitAlert`'s try/catch: a thrown error is caught
and logged, never propagated. -/
def runAlertCallback (callback : AlertEvent → Except String Unit)
    (alert : AlertEvent) : CallbackOutcome :=
  match callback alert with
  | Except.ok _ => CallbackOutcome.ok
  | Except.error e => CallbackOutcome.caught e

/-- `RealtimeMonitor.emitAlert` (`monitor.ts` lines 155–163): invoke every
registered callback in order, each under its own try/catch. The total return
type witnesses that no callback error escapes. -/
def emitAlert (callbacks : List (AlertEvent → Except String Unit))
    (alert : AlertEvent) : List CallbackOutcome :=
  match callbacks with
  | [] => []
  | callback :: rest => runAlertCallback callback alert :: emitAlert rest alert

/-- A JavaScript value as it appears among request parameters: string,
number (the integral values the connector passes), boolean, `undefined` or
`null`. -/
inductive JSVal where
| vstr (s : String)
| vnum (n : ℤ)
| vbool (b : Bool)
| vundefined
| vnull
deriving DecidableEq, Repr

/-- JavaScript `String(value)` for the parameter values. -/
def jsValToString : JSVal → String
  | JSVal.vstr s => s
  | JSVal.vnum n => toString n
  | JSVal.vbool b => if b then "true" else "false"
  | JSVal.vundefined => "undefined"
  | JSVal.vnull => "null"

/-- UTF-8 encoding of one character as its list of bytes. -/
def utf8EncodeChar (c : Char) : List ℕ :=
  let n := c.toNat
  if n < 128 then [n]
  else if n < 2048 then [192 + n / 64, 128 + n % 64]
  else if n < 65536 then [224 + n / 4096, 128 + n / 64 % 64, 128 + n % 64]
  else [240 + n / 262144, 128 + n / 4096 % 64, 128 + n / 64 % 64, 128 + n % 64]

/-- UTF-8 encoding of a string as its list of bytes. -/
def utf8Bytes (s : String) : List ℕ :=
  (s.data.map utf8EncodeChar).flatten

/-- An uppercase hexadecimal digit (for percent-escapes). -/
def hexDigitUpper (n : ℕ) : Char :=
  if n < 10 then Char.ofNat (48 + n) else Char.ofNat (55 + n)

/-- A lowercase hexadecimal digit (for the hex digest). -/
def hexDigitLower (n : ℕ) : Char :=
  if n < 10 then Char.ofNat (48 + n) else Char.ofNat (87 + n)

/-- One byte under the `application/x-www-form-urlencoded` serializer
`URLSearchParams.toString` uses: alphanumerics and `*-._` stay, space
becomes `+`, anything else percent-escapes in uppercase hex. -/
def formEncodeByte (b : ℕ) : String :=
  if b = 32 then "+"
  else if (48 ≤ b ∧ b ≤ 57) ∨ (65 ≤ b ∧ b ≤ 90) ∨ (97 ≤ b ∧ b ≤ 122) ∨
      b = 42 ∨ b = 45 ∨ b = 46 ∨ b = 95 then
    String.singleton (Char.ofNat b)
  else String.mk ['%', hexDigitUpper (b / 16), hexDigitUpper (b % 16)]

/-- URL-encode a string as `URLSearchParams` serializes keys and values. -/
def formUrlEncode (s : String) : String :=
  String.join ((utf8Bytes s).map formEncodeByte)

/-- The collation key modelling `String.prototype.localeCompare` on the
ASCII parameter keys under the default root locale: a case-insensitive
primary comparison, ties broken with lowercase before uppercase. The key
lowers every character, then appends a separator below all ASCII followed by
the case pattern, so that the lexicographic order on keys is the modelled
locale order. -/
def localeSortKey (s : String) : String :=
  String.mk (s.data.map Char.toLower) ++ String.mk ['\x00'] ++
    String.mk (s.data.map (fun c => if c.isLower then 'a' else 'b'))

/-- The entries surviving the
`filter(([, value]) => value !== undefined && value !== null)` of
`buildQueryString`. -/
def presentEntries (params : List (String × JSVal)) : List (String × JSVal) :=
  params.filter (fun kv => ¬(kv.2 = JSVal.vundefined ∨ kv.2 = JSVal.vnull))

/-- The entries of `buildQueryString` after the
`sort(([a], [b]) => a.localeCompare(b))`: a stable sort by the modelled
locale order on keys. -/
def sortedEntries (params : List (String × JSVal)) : List (String × JSVal) :=
  List.insertionSort (fun a b => localeSortKey a.1 ≤ localeSortKey b.1)
    (presentEntries params)

/-- `BinanceConnector.buildQueryString` (`binance.ts` lines 116–127): drop
absent values, sort keys by `localeCompare`, URL-encode each key and
stringified value via `URLSearchParams`, and join with `&`. -/
def buildQueryString (params : List (String × JSVal)) : String :=
  joinSep "&" ((sortedEntries params).map (fun kv =>
    formUrlEncode kv.1 ++ "=" ++ formUrlEncode (jsValToString kv.2)))

/-- A 32-bit word: a natural number reduced modulo `2 ^ 32`. -/
def u32 (n : ℕ) : ℕ := n % 4294967296

/-- Right rotation of a 32-bit word. -/
def rotr32 (x n : ℕ) : ℕ := u32 ((x >>> n) ||| (x <<< (32 - n)))

/-- SHA-256 `Ch(x,y,z)`. -/
def shaCh (x y z : ℕ) : ℕ := u32 ((x &&& y) ^^^ ((x ^^^ 4294967295) &&& z))

/-- SHA-256 `Maj(x,y,z)`. -/
def shaMaj (x y z : ℕ) : ℕ := u32 ((x &&& y) ^^^ (x &&& z) ^^^ (y &&& z))

/-- SHA-256 `Σ₀`. -/
def bsig0 (x : ℕ) : ℕ := rotr32 x 2 ^^^ rotr32 x 13 ^^^ rotr32 x 22

/-- SHA-256 `Σ₁`. -/
def bsig1 (x : ℕ) : ℕ := rotr32 x 6 ^^^ rotr32 x 11 ^^^ rotr32 x 25

/-- SHA-256 `σ₀`. -/
def ssig0 (x : ℕ) : ℕ := rotr32 x 7 ^^^ rotr32 x 18 ^^^ (x >>> 3)

/-- SHA-256 `σ₁`. -/
def ssig1 (x : ℕ) : ℕ := rotr32 x 17 ^^^ rotr32 x 19 ^^^ (x >>> 10)

/-- The 64 SHA-256 round constants (FIPS 180-4). -/
def sha256K : List ℕ :=
  [1116352408, 1899447441, 3049323471, 3921009573, 961987163,
   1508970993, 2453635748, 2870763221, 3624381080, 310598401,
   607225278, 1426881987, 1925078388, 2162078206, 2614888103,
   3248222580, 3835390401, 4022224774, 264347078, 604807628,
   770255983, 1249150122, 1555081692, 1996064986, 2554220882,
   2821834349, 2952996808, 3210313671, 3336571891, 3584528711,
   113926993, 338241895, 666307205, 773529912, 1294757372,
   1396182291, 1695183700, 1986661051, 2177026350, 2456956037,
   2730485921, 2820302411, 3259730800, 3345764771, 3516065817,
   3600352804, 4094571909, 275423344, 430227734, 506948616,
   659060556, 883997877, 958139571, 1322822218, 1537002063,
   1747873779, 1955562222, 2024104815, 2227730452, 2361852424,
   2428436474, 2756734187, 3204031479, 3329325298]

/-- The eight SHA-256 initial hash words (FIPS 180-4). -/
def sha256IV : List ℕ :=
  [1779033703, 3144134277, 1013904242, 2773480762,
   1359893119, 2600822924, 528734635, 1541459225]

/-- Big-endian packing of bytes into 32-bit words. -/
def bytesToWords : List ℕ → List ℕ
  | b0 :: b1 :: b2 :: b3 :: rest =>
    (((b0 * 256 + b1) * 256 + b2) * 256 + b3) :: bytesToWords rest
  | _ => []

/-- Big-endian unpacking of a 32-bit word into four bytes. -/
def wordBytes (w : ℕ) : List ℕ :=
  [w / 16777216 % 256, w / 65536 % 256, w / 256 % 256, w % 256]

/-- The 8-byte big-endian bit-length field of the SHA-256 padding. -/
def u64beBytes (n : ℕ) : List ℕ :=
  [n / 72057594037927936 % 256, n / 281474976710656 % 256,
   n / 1099511627776 % 256, n / 4294967296 % 256,
   n / 16777216 % 256, n / 65536 % 256, n / 256 % 256, n % 256]

/-- SHA-256 padding: append `0x80`, zero-fill to 56 mod 64, then the 64-bit
bit length. -/
def sha256Pad (msg : List ℕ) : List ℕ :=
  msg ++ [128] ++ List.replicate ((119 - msg.length % 64) % 64) 0 ++
    u64beBytes (8 * msg.length)

/-- Split a byte list into 64-byte blocks. -/
def chunks64 (l : List ℕ) : List (List ℕ) :=
  if l = [] then [] else l.take 64 :: chunks64 (l.drop 64)
termination_by l.length
decreasing_by
  simp only [List.length_drop]
  rename_i hne
  have hlen : l.length ≠ 0 := fun h0 => hne (List.length_eq_zero.mp h0)
  omega

/-- Extend the 16 message words to the 64-entry SHA-256 schedule. -/
def sha256Schedule (ws : List ℕ) : List ℕ :=
  (List.range 48).foldl (fun w _ =>
    let n := w.length
    w ++ [u32 (w.getD (n - 16) 0 + ssig0 (w.getD (n - 15) 0) +
      w.getD (n - 7) 0 + ssig1 (w.getD (n - 2) 0))]) ws

/-- The eight SHA-256 working variables. -/
structure Sha256State where
  a : ℕ
  b : ℕ
  c : ℕ
  d : ℕ
  e : ℕ
  f : ℕ
  g : ℕ
  h : ℕ
deriving DecidableEq, Repr

/-- One SHA-256 compression round. -/
def sha256Round (st : Sha256State) (kw : ℕ × ℕ) : Sha256State :=
  let t1 := u32 (st.h + bsig1 st.e + shaCh st.e st.f st.g + kw.1 + kw.2)
  let t2 := u32 (bsig0 st.a + shaMaj st.a st.b st.c)
  { a := u32 (t1 + t2), b := st.a, c := st.b, d := st.c,
    e := u32 (st.d + t1), f := st.e, g := st.f, h := st.g }

/-- Compress one 64-byte block into the running hash words. -/
def sha256Compress (hs : List ℕ) (block : List ℕ) : List ℕ :=
  let w := sha256Schedule (bytesToWords block)
  let init : Sha256State :=
    { a := hs.getD 0 0, b := hs.getD 1 0, c := hs.getD 2 0, d := hs.getD 3 0,
      e := hs.getD 4 0, f := hs.getD 5 0, g := hs.getD 6 0, h := hs.getD 7 0 }
  let fin := (sha256K.zip w).foldl sha256Round init
  [u32 (hs.getD 0 0 + fin.a), u32 (hs.getD 1 0 + fin.b),
   u32 (hs.getD 2 0 + fin.c), u32 (hs.getD 3 0 + fin.d),
   u32 (hs.getD 4 0 + fin.e), u32 (hs.getD 5 0 + fin.f),
   u32 (hs.getD 6 0 + fin.g), u32 (hs.getD 7 0 + fin.h)]

/-- SHA-256 of a byte list, as its 32 digest bytes. -/
def sha256 (msg : List ℕ) : List ℕ :=
  (((chunks64 (sha256Pad msg)).foldl sha256Compress sha256IV).map wordBytes).flatten

/-- HMAC-SHA256 (FIPS 198-1) over byte lists. -/
def hmacSha256 (key msg : List ℕ) : List ℕ :=
  let k0 := if 64 < key.length then sha256 key else key
  let kp := k0 ++ List.replicate (64 - k0.length) 0
  sha256 ((kp.map (fun b => b ^^^ 92)) ++
    sha256 ((kp.map (fun b => b ^^^ 54)) ++ msg))

/-- A byte list as the lowercase hex string `crypto.digest("hex")` emits. -/
def bytesToHex (bs : List ℕ) : String :=
  String.mk ((bs.map (fun b => [hexDigitLower (b / 16), hexDigitLower (b % 16)])).flatten)

/-- `BinanceConnector.generateSignature` (`binance.ts` lines 132–137):
HMAC-SHA256 of the query string keyed by the account secret, hex-encoded. -/
def generateSignature (apiSecret queryString : String) : String :=
  bytesToHex (hmacSha256 (utf8Bytes apiSecret) (utf8Bytes queryString))

/-- The parameter object `authenticatedRequest` builds:
`{...params, timestamp, recvWindow: 5000}` — object spread, overriding in
place or appending. -/
def authQueryParams (params : List (String × JSVal)) (timestamp : ℤ) :
    List (String × JSVal) :=
  mapSet (mapSet params "timestamp" (JSVal.vnum timestamp)) "recvWindow"
    (JSVal.vnum 5000)

/-- The signed query of `authenticatedRequest` (`binance.ts` lines 142–168):
the canonical query string with the signature appended as the `signature`
parameter. -/
def authSignedQuery (apiSecret : String) (params : List (String × JSVal))
    (timestamp : ℤ) : String :=
  let queryString := buildQueryString (authQueryParams params timestamp)
  queryString ++ "&signature=" ++ generateSignature apiSecret queryString

/-- A fixture connector whose exchange submission always succeeds with a
fixed confirmed order. -/
def connFixture : TradingConnectorStub :=
  { exchangeName := "binance"
    fetchBalances := Except.ok []
    fetchPositions := Except.ok []
    placeOrder := fun p =>
      Except.ok
        { orderId := "1", symbol := p.symbol, side := p.side, type := "limit",
          status := "NEW", price := 10, quantity := 1, filledQuantity := 0,
          remainingQuantity := 1, timestamp := 0, exchange := "binance" } }

/-- A fixture environment whose order store and event bus both fail. -/
def execEnvFixture : ExecEnv :=
  { connectors := [("binance", connFixture)]
    latestSnapshot := none
    riskSnapshotBefore := none
    storeOrder := fun _ => Except.error "database unavailable"
    publishUpdate := Except.error "event bus unavailable" }

/-- A buy order whose notional of $200000 exceeds the default $100000 limit. -/
def bigOrderFixture : OrderParams :=
  { symbol := "BTC/USDT", side := Side.buy, type := OrderType.limit,
    quantity := 1, price := some 200000 }

/-- A sell order with a $10 notional, passing every default risk check. -/
def smallOrderFixture : OrderParams :=
  { symbol := "BTC/USDT", side := Side.sell, type := OrderType.limit,
    quantity := 1, price := some 10 }

/-- An empty fixture snapshot used by concrete scenarios, carrying only its
timestamp and equity. -/
def snapFixture (t : ℤ) (equity : ℚ) : PortfolioSnapshot :=
  { timestamp := t
    totalNetEquity := equity
    totalUnrealizedPnl := 0
    assetAllocation := []
    exchangeAllocation := []
    positions := []
    balances := []
    change24h := none }

/-- The first colliding balance: exchange `a:b`, asset `c`. -/
def collideA : UnifiedBalance :=
  { asset := "c", total := 1, available := 1, usdValue := 1,
    exchange := "a:b", timestamp := 0 }

/-- The second colliding balance: exchange `a`, asset `b:c` — a different
`(exchange, asset)` pair with the same string key `a:b:c`. -/
def collideB : UnifiedBalance :=
  { asset := "b:c", total := 2, available := 2, usdValue := 2,
    exchange := "a", timestamp := 0 }

/-- A spot USDT balance on binance. -/
def usdtSpot : UnifiedBalance :=
  { asset := "USDT", total := 3, available := 1, usdValue := 3,
    exchange := "binance", timestamp := 0 }

/-- A second USDT balance on binance (the futures side), merged with the
spot one by aggregation. -/
def usdtFutures : UnifiedBalance :=
  { asset := "USDT", total := 4, available := 2, usdValue := 4,
    exchange := "binance", timestamp := 5 }

/-- A balance with a negative dollar value. -/
def negBal : UnifiedBalance :=
  { asset := "X", total := 1, available := 1, usdValue := -5,
    exchange := "kraken", timestamp := 0 }

/-- A $1000 USDT balance (spec scenario 1). -/
def usdtTestBal : UnifiedBalance :=
  { asset := "USDT", total := 1000, available := 1000, usdValue := 1000,
    exchange := "binance", timestamp := 0 }

/-- A BTC balance with no USD price, worth $0. -/
def btcZeroBal : UnifiedBalance :=
  { asset := "BTC", total := 1/2, available := 1/2, usdValue := 0,
    exchange := "binance", timestamp := 0 }

/-- A healthy connector holding one USDT balance. -/
def goodConn : ExchangeConnectorStub :=
  { exchangeName := "binance"
    fetchBalances := Except.ok [{ asset := "USDT", free := 7, locked := 1 }]
    fetchPositions := Except.ok []
    fetchOpenOrders := Except.ok [] }

/-- A connector whose balance fetch rejects. -/
def badConn : ExchangeConnectorStub :=
  { exchangeName := "bybit"
    fetchBalances := Except.error "connection reset"
    fetchPositions := Except.ok []
    fetchOpenOrders := Except.ok [] }

/-- The BTC balance worth $100 recorded in the prior cycle. -/
def btcBal100 : UnifiedBalance :=
  { asset := "BTC", total := 1, available := 1, usdValue := 100,
    exchange := "binance", timestamp := 0 }

/-- The same BTC balance after jumping to $20100. -/
def btcBal20100 : UnifiedBalance :=
  { asset := "BTC", total := 1, available := 1, usdValue := 20100,
    exchange := "binance", timestamp := 5 }

/-- A monitor state whose prior cycle recorded the $100 BTC balance. -/
def monitorBtcState : MonitorState :=
  { previousBalances := [("binance:BTC", btcBal100)]
    previousPositions := []
    previousEquity := 0 }

/-- The snapshot of the cycle in which BTC jumped to $20100. -/
def btcJumpSnapshot : PortfolioSnapshot :=
  { timestamp := 5
    totalNetEquity := 20100
    totalUnrealizedPnl := 0
    assetAllocation := []
    exchangeAllocation := []
    positions := []
    balances := [btcBal20100]
    change24h := none }

/-- A snapshot holding the $100 and $20100 BTC entries under the same key in
one cycle. -/
def dupKeySnapshot : PortfolioSnapshot :=
  { timestamp := 5
    totalNetEquity := 20200
    totalUnrealizedPnl := 0
    assetAllocation := []
    exchangeAllocation := []
    positions := []
    balances := [btcBal100, btcBal20100]
    change24h := none }

/-! ## General lemmas -/

/-- Joining a non-empty list of messages starts with the first message. -/
theorem joinSep_cons_exists (sep m : String) (rest : List String) :
    ∃ t, joinSep sep (m :: rest) = m ++ t := by
  cases rest with
  | nil => exact ⟨"", by simp [joinSep]⟩
  | cons y ys =>
    exact ⟨sep ++ joinSep sep (y :: ys), by simp [joinSep, String.append_assoc]⟩

/-- A conditional singleton message list is non-empty exactly when the check
fired. -/
theorem ite_singleton_ne_nil {c : Prop} [Decidable c] (x : String) :
    ((if c then [x] else []) ≠ ([] : List String)) ↔ c := by
  split_ifs with h <;> simp [h]

/-! ## C1: RiskManager.validateOrder -/

/-- The order-size check fires exactly on an oversized notional. -/
theorem sizeErrors_ne_nil (limits : RiskLimits) (p : OrderParams) :
    sizeErrors limits p ≠ [] ↔ orderValueOf p > limits.maxOrderSize := by
  unfold sizeErrors
  exact ite_singleton_ne_nil _

/-- The position-size check fires exactly when a position was supplied and the
combined value is oversized. -/
theorem positionErrors_ne_nil (limits : RiskLimits) (p : OrderParams)
    (pos : Option PositionRef) :
    positionErrors limits p pos ≠ [] ↔
      ∃ cp, pos = some cp ∧ cp.value + orderValueOf p > limits.maxPositionSize := by
  cases pos with
  | none => simp [positionErrors]
  | some cp =>
    simp only [positionErrors]
    simp [ite_singleton_ne_nil (c :=
      cp.value + orderValueOf p > limits.maxPositionSize)]

/-- The balance-sufficiency check fires exactly on a buy whose notional
exceeds the available balance. -/
theorem balanceErrors_ne_nil (p : OrderParams) (bal : ℚ) :
    balanceErrors p bal ≠ [] ↔ p.side = Side.buy ∧ orderValueOf p > bal := by
  unfold balanceErrors
  exact ite_singleton_ne_nil _

/-- The drawdown check fires exactly when a snapshot is loaded and its
drawdown lies below the limit. -/
theorem drawdownErrors_ne_nil (limits : RiskLimits) (snap : Option PortfolioSnapshot) :
    drawdownErrors limits snap ≠ [] ↔
      ∃ s, snap = some s ∧
        s.totalUnrealizedPnl / s.totalNetEquity < limits.maxDrawdown := by
  cases snap with
  | none => simp [drawdownErrors]
  | some s =>
    simp only [drawdownErrors]
    simp [ite_singleton_ne_nil (c :=
      s.totalUnrealizedPnl / s.totalNetEquity < limits.maxDrawdown)]

/-- C1: `RiskManager.validateOrder` evaluates every check and disallows the
order exactly when one of the four error checks fails — notional above
`maxOrderSize`, supplied position value plus notional above `maxPositionSize`,
buy-side notional above the available balance, or a loaded snapshot whose
drawdown `totalUnrealizedPnl / totalNetEquity` lies below `maxDrawdown`.
Failing messages are joined with "; " into `reason`; a balance below
`minBalance` always yields a non-empty warning list and, when no error check
fails, leaves the order allowed; an oversized notional yields a reason
containing "exceeds maximum". -/
theorem C1_validateOrder (limits : RiskLimits) (snap : Option PortfolioSnapshot)
    (p : OrderParams) (bal : ℚ) (pos : Option PositionRef) :
    ((validateOrder limits snap p bal pos).allowed = false ↔
      (orderValueOf p > limits.maxOrderSize ∨
       (∃ cp, pos = some cp ∧ cp.value + orderValueOf p > limits.maxPositionSize) ∨
       (p.side = Side.buy ∧ orderValueOf p > bal) ∨
       (∃ s, snap = some s ∧
         s.totalUnrealizedPnl / s.totalNetEquity < limits.maxDrawdown))) ∧
    ((validateOrder limits snap p bal pos).allowed = false →
      ∃ msgs : List String, msgs ≠ [] ∧
        (validateOrder limits snap p bal pos).reason = some (joinSep "; " msgs)) ∧
    (bal < limits.minBalance →
      ∃ w, (validateOrder limits snap p bal pos).warnings = some w ∧ w ≠ []) ∧
    (bal < limits.minBalance ∧
        ¬(orderValueOf p > limits.maxOrderSize ∨
          (∃ cp, pos = some cp ∧ cp.value + orderValueOf p > limits.maxPositionSize) ∨
          (p.side = Side.buy ∧ orderValueOf p > bal) ∨
          (∃ s, snap = some s ∧
            s.totalUnrealizedPnl / s.totalNetEquity < limits.maxDrawdown)) →
      (validateOrder limits snap p bal pos).allowed = true) ∧
    (orderValueOf p > limits.maxOrderSize →
      ∃ pre post, (validateOrder limits snap p bal pos).reason =
        some (pre ++ ("exceeds maximum" ++ post))) := by
  have herrs : riskErrors limits snap p bal pos ≠ [] ↔
      (orderValueOf p > limits.maxOrderSize ∨
       (∃ cp, pos = some cp ∧ cp.value + orderValueOf p > limits.maxPositionSize) ∨
       (p.side = Side.buy ∧ orderValueOf p > bal) ∨
       (∃ s, snap = some s ∧
         s.totalUnrealizedPnl / s.totalNetEquity < limits.maxDrawdown)) := by
    unfold riskErrors
    rw [← sizeErrors_ne_nil limits p, ← positionErrors_ne_nil limits p pos,
      ← balanceErrors_ne_nil p bal, ← drawdownErrors_ne_nil limits snap]
    simp [List.append_eq_nil, or_assoc, not_and_or, ne_eq]
    tauto
  have hallowed : (validateOrder limits snap p bal pos).allowed =
      (riskErrors limits snap p bal pos).isEmpty := rfl
  have hreason : (validateOrder limits snap p bal pos).reason =
      (if (riskErrors limits snap p bal pos).isEmpty then none
       else some (joinSep "; " (riskErrors limits snap p bal pos))) := rfl
  have hwarn : (validateOrder limits snap p bal pos).warnings =
      (if (riskWarnings limits bal).isEmpty then none
       else some (riskWarnings limits bal)) := rfl
  have hiff : (validateOrder limits snap p bal pos).allowed = false ↔
      riskErrors limits snap p bal pos ≠ [] := by
    rw [hallowed]
    simp [List.isEmpty_iff]
  refine ⟨hiff.trans herrs, ?_, ?_, ?_, ?_⟩
  · intro hfalse
    have hne := hiff.mp hfalse
    refine ⟨riskErrors limits snap p bal pos, hne, ?_⟩
    rw [hreason, if_neg (by simpa [List.isEmpty_iff] using hne)]
  · intro hlow
    have hw : riskWarnings limits bal =
        ["Balance ($" ++ qToFixed2 bal ++ ") is below recommended minimum ($" ++
          qToString limits.minBalance ++ ")"] := by
      unfold riskWarnings
      rw [if_pos hlow]
    refine ⟨riskWarnings limits bal, ?_, by simp [hw]⟩
    rw [hwarn, if_neg (by simp [hw, List.isEmpty_iff])]
  · rintro ⟨-, hnone⟩
    have : ¬ riskErrors limits snap p bal pos ≠ [] := fun hne => hnone (herrs.mp hne)
    have hnil : riskErrors limits snap p bal pos = [] := not_not.mp this
    rw [hallowed, hnil]
    rfl
  · intro hbig
    have hsize : sizeErrors limits p =
        ["Order size ($" ++ qToFixed2 (orderValueOf p) ++ ") exceeds maximum ($" ++
          qToFixed2 limits.maxOrderSize ++ ")"] := by
      unfold sizeErrors
      rw [if_pos hbig]
    have hcons : riskErrors limits snap p bal pos =
        ("Order size ($" ++ qToFixed2 (orderValueOf p) ++ ") exceeds maximum ($" ++
          qToFixed2 limits.maxOrderSize ++ ")") ::
          (positionErrors limits p pos ++ balanceErrors p bal ++
            drawdownErrors limits snap) := by
      unfold riskErrors
      rw [hsize]
      simp
    obtain ⟨t, ht⟩ := joinSep_cons_exists "; " _
      (positionErrors limits p pos ++ balanceErrors p bal ++ drawdownErrors limits snap)
    refine ⟨"Order size ($" ++ qToFixed2 (orderValueOf p) ++ ") ",
      " ($" ++ qToFixed2 limits.maxOrderSize ++ ")" ++ t, ?_⟩
    have hne : riskErrors limits snap p bal pos ≠ [] := by
      rw [hcons]
      simp
    rw [hreason, if_neg (by simpa [List.isEmpty_iff] using hne), hcons, ht]
    congr 1
    have hsplit : ") exceeds maximum ($" = ") " ++ ("exceeds maximum" ++ " ($") := rfl
    simp only [String.append_assoc, hsplit]

/-- C1 witness: with default limits and no snapshot, a $50 balance and a $10
buy order trip only the minimum-balance warning, leaving the order allowed
with a non-empty warning list. -/
theorem C1_validateOrder_witness :
    (validateOrder defaultRiskLimits none
      { symbol := "BTCUSDT", side := Side.buy, type := OrderType.limit,
        quantity := 1, price := some 10 } 50 none).allowed = true ∧
    ∃ w, (validateOrder defaultRiskLimits none
      { symbol := "BTCUSDT", side := Side.buy, type := OrderType.limit,
        quantity := 1, price := some 10 } 50 none).warnings = some w ∧ w ≠ [] := by
  have h := C1_validateOrder defaultRiskLimits none
    { symbol := "BTCUSDT", side := Side.buy, type := OrderType.limit,
      quantity := 1, price := some 10 } 50 none
  refine ⟨?_, ?_⟩
  · refine h.2.2.2.1 ⟨by norm_num [defaultRiskLimits], ?_⟩
    simp only [orderValueOf, defaultRiskLimits]
    push_neg
    norm_num
    exact ⟨fun x hx => by simp at hx, fun x hx => by simp at hx⟩
  · exact h.2.2.1 (by norm_num [defaultRiskLimits])

/-! ## C2: ExecutionEngine.placeOrder -/

/-- C2: with a registered connector, `placeOrder` throws the joined risk
reasons and never submits to the exchange when the risk check disallows the
order; and when the check passes and the connector's own `placeOrder`
succeeds, the exchange result is returned to the caller whatever the
order-store write and event-bus publish outcomes are — their failures are
swallowed. -/
theorem C2_placeOrder (env : ExecEnv) (exchange : String) (p : OrderParams)
    (conn : TradingConnectorStub)
    (hconn : List.lookup (jsToLower exchange) env.connectors = some conn) :
    ((placeOrderRiskCheck env conn exchange p).allowed = false →
      (placeOrder env exchange p).1 =
        Except.error ("Order rejected by risk manager: " ++
          (placeOrderRiskCheck env conn exchange p).reason.getD "undefined") ∧
      ExecEff.submitted ∉ (placeOrder env exchange p).2) ∧
    (∀ r, (placeOrderRiskCheck env conn exchange p).allowed = true →
      conn.placeOrder p = Except.ok r →
      (placeOrder env exchange p).1 = Except.ok r) := by
  constructor
  · intro hfalse
    constructor <;>
      simp [placeOrder, hconn, hfalse]
  · intro r htrue hok
    simp [placeOrder, hconn, htrue, hok]

/-- C2 witness: the oversized buy is rejected without submission, and the
small sell comes back as the exchange confirmed it even though both the
order store and the event bus fail. -/
theorem C2_placeOrder_witness :
    (placeOrder execEnvFixture "binance" bigOrderFixture).1 =
      Except.error ("Order rejected by risk manager: " ++
        (placeOrderRiskCheck execEnvFixture connFixture "binance"
          bigOrderFixture).reason.getD "undefined") ∧
    ExecEff.submitted ∉ (placeOrder execEnvFixture "binance" bigOrderFixture).2 ∧
    (placeOrder execEnvFixture "binance" smallOrderFixture).1 =
      Except.ok
        { orderId := "1", symbol := "BTC/USDT", side := Side.sell, type := "limit",
          status := "NEW", price := 10, quantity := 1, filledQuantity := 0,
          remainingQuantity := 1, timestamp := 0, exchange := "binance" } := by
  have hconn : List.lookup (jsToLower "binance") execEnvFixture.connectors =
      some connFixture := rfl
  have hbig := C2_placeOrder execEnvFixture "binance" bigOrderFixture connFixture hconn
  have hsmall := C2_placeOrder execEnvFixture "binance" smallOrderFixture connFixture hconn
  have hbigRisk : (placeOrderRiskCheck execEnvFixture connFixture "binance"
      bigOrderFixture).allowed = false := by
    norm_num [placeOrderRiskCheck, validateOrder, riskErrors, sizeErrors,
      positionErrors, balanceErrors, drawdownErrors, orderValueOf,
      resolveAvailableBalance, resolveCurrentPosition, execRiskSnapshot,
      defaultRiskLimits, quoteAssetOf, bigOrderFixture, execEnvFixture, connFixture]
  have hsmallRisk : (placeOrderRiskCheck execEnvFixture connFixture "binance"
      smallOrderFixture).allowed = true := by
    norm_num [placeOrderRiskCheck, validateOrder, riskErrors, sizeErrors,
      positionErrors, balanceErrors, drawdownErrors, orderValueOf,
      resolveAvailableBalance, resolveCurrentPosition, execRiskSnapshot,
      defaultRiskLimits, quoteAssetOf, smallOrderFixture, execEnvFixture, connFixture]
    decide
  exact ⟨(hbig.1 hbigRisk).1, (hbig.1 hbigRisk).2, hsmall.2 _ hsmallRisk rfl⟩

/-! ## C4: the bounded snapshot history -/

/-- A push into a history within capacity appends and drops the overflow
from the front. -/
theorem pushSnapshot_eq_drop (hist : List PortfolioSnapshot) (N : ℕ)
    (s : PortfolioSnapshot) (h : hist.length ≤ N) :
    pushSnapshot hist N s = (hist ++ [s]).drop (hist.length + 1 - N) := by
  simp only [pushSnapshot]
  split_ifs with hlen
  · simp only [List.length_append, List.length_cons, List.length_nil] at hlen
    have h1 : hist.length + 1 - N = 1 := by omega
    rw [h1]
  · simp only [List.length_append, List.length_cons, List.length_nil, not_lt] at hlen
    have h0 : hist.length + 1 - N = 0 := by omega
    rw [h0, List.drop_zero]

/-- Folding pushes through the history keeps exactly the newest `N`
elements of the concatenation. -/
theorem foldl_pushSnapshot (N : ℕ) (pushes : List PortfolioSnapshot) :
    ∀ start : List PortfolioSnapshot, start.length ≤ N →
      N ≤ start.length + pushes.length →
      pushes.foldl (fun h s => pushSnapshot h N s) start =
        (start ++ pushes).drop (start.length + pushes.length - N) := by
  induction pushes with
  | nil =>
    intro start h1 h2
    simp only [List.foldl_nil, List.append_nil, List.length_nil, Nat.add_zero]
    have h0 : start.length - N = 0 := by omega
    rw [h0, List.drop_zero]
  | cons s rest ih =>
    intro start h1 h2
    simp only [List.length_cons] at h2
    simp only [List.foldl_cons]
    by_cases hcase : start.length < N
    · have hpush : pushSnapshot start N s = start ++ [s] := by
        rw [pushSnapshot_eq_drop start N s h1]
        have h0 : start.length + 1 - N = 0 := by omega
        rw [h0, List.drop_zero]
      have hlen1 : (start ++ [s]).length = start.length + 1 := by
        simp only [List.length_append, List.length_cons, List.length_nil]
      rw [hpush, ih (start ++ [s]) (by omega) (by omega)]
      rw [hlen1, List.append_assoc]
      have hidx : start.length + 1 + rest.length - N =
          start.length + (rest.length + 1) - N := by omega
      rw [hidx]
      rfl
    · have hN : start.length = N := le_antisymm h1 (not_lt.mp hcase)
      have hpush : pushSnapshot start N s = (start ++ [s]).drop 1 := by
        rw [pushSnapshot_eq_drop start N s h1]
        have h1' : start.length + 1 - N = 1 := by omega
        rw [h1']
      have hlen1 : ((start ++ [s]).drop 1).length = start.length := by
        simp only [List.length_drop, List.length_append, List.length_cons,
          List.length_nil]
        omega
      rw [hpush, ih ((start ++ [s]).drop 1) (by omega) (by omega)]
      have hd : ((start ++ [s]).drop 1) ++ rest = ((start ++ [s]) ++ rest).drop 1 :=
        (List.drop_append_of_le_length (show (1 : ℕ) ≤ (start ++ [s]).length by
          simp only [List.length_append, List.length_cons, List.length_nil]
          omega)).symm
      rw [hd, List.drop_drop, hlen1, List.append_assoc]
      have hidx : 1 + (start.length + rest.length - N) =
          start.length + (rest.length + 1) - N := by omega
      rw [hidx]
      rfl

/-- C4: the snapshot history is a bounded FIFO buffer whose default capacity
is 1000: from any history within capacity `N`, `N + 1` successful snapshot
pushes leave exactly the last `N` pushed snapshots in arrival order (the
oldest evicted first), `getLatestSnapshot` returns the most recently stored
snapshot (`none` on an empty history), and a push with positive capacity
makes its snapshot the latest. -/
theorem C4_snapshotHistory :
    defaultMaxSnapshots = 1000 ∧
    (∀ (N : ℕ) (start pushes : List PortfolioSnapshot),
      start.length ≤ N → pushes.length = N + 1 →
      pushes.foldl (fun h s => pushSnapshot h N s) start = pushes.drop 1) ∧
    (∀ snapshots, getLatestSnapshot snapshots = snapshots.getLast?) ∧
    (∀ (snapshots : List PortfolioSnapshot) (N : ℕ) (s : PortfolioSnapshot),
      1 ≤ N →
      getLatestSnapshot (pushSnapshot snapshots N s) = some s) := by
  have hlast : ∀ snapshots : List PortfolioSnapshot,
      getLatestSnapshot snapshots = snapshots.getLast? := by
    intro snapshots
    unfold getLatestSnapshot
    split_ifs with h
    · exact (List.getLast?_eq_getElem? snapshots).symm
    · cases snapshots with
      | nil => rfl
      | cons a l => simp at h
  refine ⟨rfl, ?_, hlast, ?_⟩
  · intro N start pushes h1 h2
    rw [foldl_pushSnapshot N pushes start h1 (by omega)]
    have hidx : start.length + pushes.length - N = start.length + 1 := by omega
    rw [hidx]
    have : start.length + 1 = start.length + 1 := rfl
    calc (start ++ pushes).drop (start.length + 1)
        = (start ++ pushes).drop (start.length + 1) := rfl
      _ = pushes.drop 1 := by rw [List.drop_append 1]
  · intro snapshots N s hN
    rw [hlast]
    simp only [pushSnapshot]
    split_ifs with h
    · simp only [List.length_append, List.length_cons, List.length_nil] at h
      have hlen : (1 : ℕ) ≤ snapshots.length := by omega
      rw [List.drop_append_of_le_length hlen]
      exact List.getLast?_concat _
    · exact List.getLast?_concat _

/-- C4 witness: with capacity 2, pushing three snapshots into an empty
history leaves exactly the last two, and the third is the latest. -/
theorem C4_snapshotHistory_witness :
    [snapFixture 1 0, snapFixture 2 0, snapFixture 3 0].foldl
      (fun h s => pushSnapshot h 2 s) [] =
      [snapFixture 2 0, snapFixture 3 0] ∧
    getLatestSnapshot (pushSnapshot [snapFixture 1 0] 2 (snapFixture 2 0)) =
      some (snapFixture 2 0) := by
  constructor
  · exact C4_snapshotHistory.2.1 2 [] [snapFixture 1 0, snapFixture 2 0, snapFixture 3 0]
      (by simp) (by simp)
  · exact C4_snapshotHistory.2.2.2 [snapFixture 1 0] 2 (snapFixture 2 0) (by norm_num)


/-! ## C6: PortfolioAggregator.aggregateBalances -/

/-- Merging a balance into the map keeps the modified entry's key. -/
theorem balanceKey_merge (e b : UnifiedBalance) :
    balanceKey
      { e with
          total := e.total + b.total
          available := e.available + b.available
          usdValue := e.usdValue + b.usdValue } = balanceKey e := rfl

/-- Unfold the total over a cons cell. -/
theorem totalNetEquity_cons (x : UnifiedBalance) (rest : List UnifiedBalance) :
    calculateTotalNetEquity (x :: rest) =
      x.usdValue + calculateTotalNetEquity rest := by
  simp [calculateTotalNetEquity]

/-- Unfold a key-group sum over a cons cell. -/
theorem keyGroupSum_cons (x : UnifiedBalance) (rest : List UnifiedBalance)
    (k : String) :
    keyGroupSum (x :: rest) k =
      (if balanceKey x = k then x.usdValue else 0) + keyGroupSum rest k := by
  by_cases h : balanceKey x = k
  · simp [keyGroupSum, List.filter_cons, h]
  · simp [keyGroupSum, List.filter_cons, h]

/-- Unfold a key count over a cons cell. -/
theorem keyCount_cons (x : UnifiedBalance) (rest : List UnifiedBalance)
    (k : String) :
    keyCount (x :: rest) k =
      (if balanceKey x = k then 1 else 0) + keyCount rest k := by
  by_cases h : balanceKey x = k
  · simp [keyCount, List.filter_cons, h]
    omega
  · simp [keyCount, List.filter_cons, h]

/-- One merge step adds exactly the merged balance's value to the total. -/
theorem aggStep_totalNetEquity (m : List UnifiedBalance) (b : UnifiedBalance) :
    calculateTotalNetEquity (aggStep m b) =
      calculateTotalNetEquity m + b.usdValue := by
  induction m with
  | nil => simp [aggStep, calculateTotalNetEquity]
  | cons e rest ih =>
    simp only [aggStep]
    by_cases h : balanceKey e = balanceKey b
    · rw [if_pos h, totalNetEquity_cons, totalNetEquity_cons]
      dsimp
      ring
    · rw [if_neg h, totalNetEquity_cons, totalNetEquity_cons, ih]
      ring

/-- One merge step adds the merged value to its own key group only. -/
theorem aggStep_keyGroupSum (m : List UnifiedBalance) (b : UnifiedBalance)
    (k : String) :
    keyGroupSum (aggStep m b) k =
      keyGroupSum m k + if balanceKey b = k then b.usdValue else 0 := by
  induction m with
  | nil =>
    simp only [aggStep]
    rw [keyGroupSum_cons]
    by_cases h : balanceKey b = k <;> simp [h, keyGroupSum]
  | cons e rest ih =>
    simp only [aggStep]
    by_cases h : balanceKey e = balanceKey b
    · rw [if_pos h, keyGroupSum_cons, keyGroupSum_cons, balanceKey_merge]
      dsimp
      by_cases hk : balanceKey e = k
      · have hbk : balanceKey b = k := by rw [← h]; exact hk
        rw [if_pos hk, if_pos hk, if_pos hbk]
        ring
      · have hbk : ¬ balanceKey b = k := by rw [← h]; exact hk
        rw [if_neg hk, if_neg hk, if_neg hbk]
        ring
    · rw [if_neg h, keyGroupSum_cons, keyGroupSum_cons, ih]
      ring

/-- One merge step grows a key's entry count only when its key was absent. -/
theorem aggStep_keyCount (m : List UnifiedBalance) (b : UnifiedBalance)
    (k : String) :
    keyCount (aggStep m b) k = keyCount m k +
      if balanceKey b = k ∧ keyCount m (balanceKey b) = 0 then 1 else 0 := by
  induction m with
  | nil =>
    simp only [aggStep]
    rw [keyCount_cons]
    by_cases h : balanceKey b = k <;> simp [h, keyCount]
  | cons e rest ih =>
    simp only [aggStep]
    by_cases h : balanceKey e = balanceKey b
    · rw [if_pos h, keyCount_cons, keyCount_cons, balanceKey_merge]
      have hpos : keyCount (e :: rest) (balanceKey b) ≠ 0 := by
        rw [keyCount_cons, if_pos h]
        omega
      have hfalse : (if balanceKey b = k ∧ keyCount (e :: rest) (balanceKey b) = 0
          then 1 else 0) = 0 := if_neg (fun hc => hpos hc.2)
      rw [hfalse]
      omega
    · rw [if_neg h, keyCount_cons, keyCount_cons, ih]
      have hskip : keyCount (e :: rest) (balanceKey b) =
          keyCount rest (balanceKey b) := by
        rw [keyCount_cons, if_neg h]
        omega
      rw [hskip]
      try omega

/-- Folding balances through the map adds their total value. -/
theorem foldl_aggStep_totalNetEquity (bs : List UnifiedBalance) :
    ∀ acc : List UnifiedBalance,
      calculateTotalNetEquity (bs.foldl aggStep acc) =
        calculateTotalNetEquity acc + calculateTotalNetEquity bs := by
  induction bs with
  | nil => intro acc; simp [calculateTotalNetEquity]
  | cons b rest ih =>
    intro acc
    rw [List.foldl_cons, ih (aggStep acc b), aggStep_totalNetEquity,
      totalNetEquity_cons]
    ring

/-- Folding balances through the map adds their per-key value. -/
theorem foldl_aggStep_keyGroupSum (bs : List UnifiedBalance) :
    ∀ (acc : List UnifiedBalance) (k : String),
      keyGroupSum (bs.foldl aggStep acc) k =
        keyGroupSum acc k + keyGroupSum bs k := by
  induction bs with
  | nil => intro acc k; simp [keyGroupSum]
  | cons b rest ih =>
    intro acc k
    rw [List.foldl_cons, ih (aggStep acc b) k, aggStep_keyGroupSum,
      keyGroupSum_cons]
    ring

/-- Folding through a map whose keys are unique leaves each key with one
entry exactly when the key occurs in the map or among the balances. -/
theorem foldl_aggStep_keyCount (bs : List UnifiedBalance) :
    ∀ acc : List UnifiedBalance, (∀ k2, keyCount acc k2 ≤ 1) →
      ∀ k, keyCount (bs.foldl aggStep acc) k =
        max (keyCount acc k) (if 0 < keyCount bs k then 1 else 0) := by
  induction bs with
  | nil =>
    intro acc hacc k
    simp [keyCount]
  | cons b rest ih =>
    intro acc hacc k
    have hinv : ∀ k2, keyCount (aggStep acc b) k2 ≤ 1 := by
      intro k2
      rw [aggStep_keyCount]
      have := hacc k2
      by_cases hb : balanceKey b = k2
      · subst hb
        by_cases hz : keyCount acc (balanceKey b) = 0 <;> simp [hz] <;> omega
      · simp [hb]
        omega
    rw [List.foldl_cons, ih (aggStep acc b) hinv k, aggStep_keyCount,
      keyCount_cons]
    have h1 := hacc k
    have h2 := hacc (balanceKey b)
    by_cases hb : balanceKey b = k
    · subst hb
      by_cases hz : keyCount acc (balanceKey b) = 0
      · simp only [hz, and_self, if_pos, and_true]
        split_ifs <;> omega
      · have hf : (if balanceKey b = balanceKey b ∧ keyCount acc (balanceKey b) = 0
            then 1 else 0) = 0 := if_neg (fun hc => hz hc.2)
        rw [hf]
        split_ifs <;> omega
    · have hf : (if balanceKey b = k ∧ keyCount acc (balanceKey b) = 0
          then 1 else 0) = 0 := by
        split_ifs with hc
        · exact absurd hc.1 hb
        · rfl
      have hg : (if balanceKey b = k then 1 else 0) = 0 := if_neg hb
      rw [hf, hg]
      simp only [Nat.zero_add, Nat.add_zero]
      try omega


/-- Any entry of the merged map carries the `(exchange, asset)` pair of a map
entry or of the merged balance. -/
theorem aggStep_mem_pair (m : List UnifiedBalance) (b e : UnifiedBalance)
    (he : e ∈ aggStep m b) :
    (∃ a ∈ m, e.exchange = a.exchange ∧ e.asset = a.asset) ∨
      (e.exchange = b.exchange ∧ e.asset = b.asset) := by
  induction m with
  | nil =>
    simp only [aggStep, List.mem_singleton] at he
    subst he
    exact Or.inr ⟨rfl, rfl⟩
  | cons x rest ih =>
    simp only [aggStep] at he
    by_cases h : balanceKey x = balanceKey b
    · rw [if_pos h] at he
      rcases List.mem_cons.mp he with he1 | he2
      · subst he1
        exact Or.inl ⟨x, List.mem_cons_self x rest, rfl, rfl⟩
      · exact Or.inl ⟨e, List.mem_cons_of_mem x he2, rfl, rfl⟩
    · rw [if_neg h] at he
      rcases List.mem_cons.mp he with he1 | he2
      · subst he1
        exact Or.inl ⟨e, List.mem_cons_self e rest, rfl, rfl⟩
      · rcases ih he2 with ⟨a, ha, hp⟩ | hp
        · exact Or.inl ⟨a, List.mem_cons_of_mem x ha, hp⟩
        · exact Or.inr hp

/-- Any entry of the aggregate carries the `(exchange, asset)` pair of an
initial map entry or of an input balance. -/
theorem foldl_aggStep_mem_pair (bs : List UnifiedBalance) :
    ∀ (acc : List UnifiedBalance) (e : UnifiedBalance),
      e ∈ bs.foldl aggStep acc →
      (∃ a ∈ acc, e.exchange = a.exchange ∧ e.asset = a.asset) ∨
        (∃ b ∈ bs, e.exchange = b.exchange ∧ e.asset = b.asset) := by
  induction bs with
  | nil =>
    intro acc e he
    simp only [List.foldl_nil] at he
    exact Or.inl ⟨e, he, rfl, rfl⟩
  | cons b rest ih =>
    intro acc e he
    rw [List.foldl_cons] at he
    rcases ih (aggStep acc b) e he with ⟨a, ha, hp⟩ | hin
    · rcases aggStep_mem_pair acc b a ha with ⟨a2, ha2, hp2⟩ | hp2
      · exact Or.inl ⟨a2, ha2, hp.1.trans hp2.1, hp.2.trans hp2.2⟩
      · exact Or.inr ⟨b, List.mem_cons_self b rest,
          hp.1.trans hp2.1, hp.2.trans hp2.2⟩
    · rcases hin with ⟨b2, hb2, hp⟩
      exact Or.inr ⟨b2, List.mem_cons_of_mem b hb2, hp⟩

/-- Two colon-free prefixes followed by a colon split a character list
uniquely. -/
theorem append_colon_inj (l1 : List Char) :
    ∀ (l2 r1 r2 : List Char), ':' ∉ l1 → ':' ∉ l2 →
      l1 ++ ':' :: r1 = l2 ++ ':' :: r2 → l1 = l2 ∧ r1 = r2 := by
  induction l1 with
  | nil =>
    intro l2 r1 r2 h1 h2 heq
    cases l2 with
    | nil => simpa using heq
    | cons c t =>
      simp only [List.nil_append, List.cons_append, List.cons.injEq] at heq
      exact absurd (heq.1 ▸ List.mem_cons_self c t) h2
  | cons c t ih =>
    intro l2 r1 r2 h1 h2 heq
    cases l2 with
    | nil =>
      simp only [List.nil_append, List.cons_append, List.cons.injEq] at heq
      exact absurd (heq.1 ▸ List.mem_cons_self c t) h1
    | cons c2 t2 =>
      simp only [List.cons_append, List.cons.injEq] at heq
      obtain ⟨hc, ht⟩ := heq
      obtain ⟨hteq, hreq⟩ := ih t2 r1 r2
        (fun hm => h1 (List.mem_cons_of_mem c hm))
        (fun hm => h2 (List.mem_cons_of_mem c2 hm)) ht
      exact ⟨by rw [hc, hteq], hreq⟩

/-- For a colon-free exchange, the string key determines the
`(exchange, asset)` pair. -/
theorem balanceKey_eq_iff (b : UnifiedBalance) (ex asset : String)
    (hb : ':' ∉ b.exchange.data) (hex : ':' ∉ ex.data) :
    balanceKey b = ex ++ ":" ++ asset ↔ (b.exchange = ex ∧ b.asset = asset) := by
  constructor
  · intro h
    have hdata : b.exchange.data ++ ':' :: b.asset.data =
        ex.data ++ ':' :: asset.data := by
      have h2 := congrArg String.data h
      simp only [balanceKey, String.data_append] at h2
      simpa using h2
    obtain ⟨he, ha⟩ := append_colon_inj b.exchange.data ex.data
      b.asset.data asset.data hb hex hdata
    exact ⟨String.ext he, String.ext ha⟩
  · rintro ⟨h1, h2⟩
    rw [balanceKey, h1, h2]

/-- On colon-free balances the `(exchange, asset)` group is the string-key
group. -/
theorem pair_measures_eq_key (l : List UnifiedBalance) (ex asset : String)
    (hl : ∀ b ∈ l, ':' ∉ b.exchange.data) (hex : ':' ∉ ex.data) :
    pairGroupSum l ex asset = keyGroupSum l (ex ++ ":" ++ asset) ∧
      pairCount l ex asset = keyCount l (ex ++ ":" ++ asset) := by
  have hfilter : l.filter (fun b => decide (b.exchange = ex ∧ b.asset = asset)) =
      l.filter (fun b => decide (balanceKey b = ex ++ ":" ++ asset)) := by
    apply List.filter_congr
    intro b hbmem
    have := balanceKey_eq_iff b ex asset (hl b hbmem) hex
    simp only [decide_eq_decide]
    exact this.symm
  constructor
  · simp only [pairGroupSum, keyGroupSum, hfilter]
  · simp only [pairCount, keyCount, hfilter]

/-- C6 counterexample: on input `[collideA, collideB]` — two distinct
`(exchange, asset)` pairs whose string keys collide — the aggregate holds a
single entry, the `("a", "b:c")` group of the input carries usdValue 2 but
the aggregate's `("a", "b:c")` group is empty with sum 0: the claim's
per-pair-group preservation and one-entry-per-distinct-pair both fail. -/
theorem C6_counterexample :
    pairCount [collideA, collideB] "a" "b:c" = 1 ∧
    pairGroupSum [collideA, collideB] "a" "b:c" = 2 ∧
    pairCount (aggregateBalances [collideA, collideB]) "a" "b:c" = 0 ∧
    pairGroupSum (aggregateBalances [collideA, collideB]) "a" "b:c" = 0 ∧
    (aggregateBalances [collideA, collideB]).length = 1 := by
  refine ⟨?_, ?_, ?_, ?_, ?_⟩ <;>
    simp +decide [pairCount, pairGroupSum, aggregateBalances, aggStep,
      balanceKey, collideA, collideB]

/-- C6 (amended): `aggregateBalances` merges by the string key
`exchange + ":" + asset`, summing `total`, `available` and `usdValue`. The
overall usdValue sum and every string-key group sum are always preserved, and
the output holds exactly one entry per distinct string key of the input;
whenever no input exchange name contains a colon (so the string key is
faithful to the pair), the same holds for every `(exchange, asset)` group. -/
theorem C6_aggregateBalances (bs : List UnifiedBalance) :
    calculateTotalNetEquity (aggregateBalances bs) = calculateTotalNetEquity bs ∧
    (∀ k, keyGroupSum (aggregateBalances bs) k = keyGroupSum bs k) ∧
    (∀ k, keyCount (aggregateBalances bs) k = if 0 < keyCount bs k then 1 else 0) ∧
    ((∀ b ∈ bs, ':' ∉ b.exchange.data) → ∀ ex asset, ':' ∉ ex.data →
      pairGroupSum (aggregateBalances bs) ex asset = pairGroupSum bs ex asset ∧
      pairCount (aggregateBalances bs) ex asset =
        if 0 < pairCount bs ex asset then 1 else 0) := by
  have htot : calculateTotalNetEquity (aggregateBalances bs) =
      calculateTotalNetEquity bs := by
    unfold aggregateBalances
    rw [foldl_aggStep_totalNetEquity]
    simp [calculateTotalNetEquity]
  have hks : ∀ k, keyGroupSum (aggregateBalances bs) k = keyGroupSum bs k := by
    intro k
    unfold aggregateBalances
    rw [foldl_aggStep_keyGroupSum]
    simp [keyGroupSum]
  have hkc : ∀ k, keyCount (aggregateBalances bs) k =
      if 0 < keyCount bs k then 1 else 0 := by
    intro k
    unfold aggregateBalances
    rw [foldl_aggStep_keyCount bs [] (fun k2 => by simp [keyCount]) k]
    simp [keyCount]
  refine ⟨htot, hks, hkc, ?_⟩
  intro hcf ex asset hex
  have hcfagg : ∀ e ∈ aggregateBalances bs, ':' ∉ e.exchange.data := by
    intro e he
    rcases foldl_aggStep_mem_pair bs [] e he with ⟨a, ha, _⟩ | ⟨b, hbmem, hp, _⟩
    · simp at ha
    · rw [hp]
      exact hcf b hbmem
  obtain ⟨hps1, hpc1⟩ :=
    pair_measures_eq_key (aggregateBalances bs) ex asset hcfagg hex
  obtain ⟨hps2, hpc2⟩ := pair_measures_eq_key bs ex asset hcf hex
  constructor
  · rw [hps1, hks, ← hps2]
  · rw [hpc1, hkc, hpc2]

/-- C6 witness: aggregating the two colon-free binance USDT balances
preserves the group's usdValue and leaves exactly one entry for the pair. -/
theorem C6_aggregateBalances_witness :
    pairGroupSum (aggregateBalances [usdtSpot, usdtFutures]) "binance" "USDT" =
      pairGroupSum [usdtSpot, usdtFutures] "binance" "USDT" ∧
    pairCount (aggregateBalances [usdtSpot, usdtFutures]) "binance" "USDT" = 1 := by
  have h := (C6_aggregateBalances [usdtSpot, usdtFutures]).2.2.2
    (by decide) "binance" "USDT" (by decide)
  refine ⟨h.1, ?_⟩
  rw [h.2]
  simp +decide [pairCount, usdtSpot, usdtFutures]


/-! ## C5: the allocation calculators -/

/-- The model of the JavaScript sort permutes its input. -/
theorem sortByDesc_perm {α : Type} (key : α → ℚ) (l : List α) :
    (sortByDesc key l).Perm l :=
  List.perm_insertionSort _ l

/-- The model of the JavaScript sort emits a descending key order. -/
theorem sortByDesc_sorted {α : Type} (key : α → ℚ) (l : List α) :
    List.Pairwise (fun a b => key b ≤ key a) (sortByDesc key l) := by
  haveI : IsTotal α (fun a b => key b ≤ key a) := ⟨fun a b => le_total (key b) (key a)⟩
  haveI : IsTrans α (fun a b => key b ≤ key a) :=
    ⟨fun _ _ _ h1 h2 => le_trans h2 h1⟩
  exact List.sorted_insertionSort _ l

/-- Inserting a balance into the asset map adds its value to the map total. -/
theorem assetInsert_total (m : List (String × AssetAccum)) (b : UnifiedBalance) :
    ((assetInsert m b).map (fun ad => ad.2.totalUsdValue)).sum =
      (m.map (fun ad => ad.2.totalUsdValue)).sum + b.usdValue := by
  induction m with
  | nil => simp [assetInsert]
  | cons x rest ih =>
    by_cases h : x.1 = b.asset
    · obtain ⟨a, acc⟩ := x
      simp only at h
      simp only [assetInsert, if_pos h, List.map_cons, List.sum_cons]
      ring
    · obtain ⟨a, acc⟩ := x
      simp only at h
      simp only [assetInsert, if_neg h, List.map_cons, List.sum_cons, ih]
      ring

/-- A fold step keeps the asset map total in sync with the positive values
seen so far. -/
theorem assetStep_total (m : List (String × AssetAccum)) (b : UnifiedBalance) :
    ((assetStep m b).map (fun ad => ad.2.totalUsdValue)).sum =
      (m.map (fun ad => ad.2.totalUsdValue)).sum +
        (if b.usdValue ≤ 0 then 0 else b.usdValue) := by
  unfold assetStep
  split_ifs with h
  · simp
  · rw [assetInsert_total]

/-- The asset map total is the sum of the positive balance values. -/
theorem foldl_assetStep_total (bs : List UnifiedBalance) :
    ∀ acc : List (String × AssetAccum),
      ((bs.foldl assetStep acc).map (fun ad => ad.2.totalUsdValue)).sum =
        (acc.map (fun ad => ad.2.totalUsdValue)).sum + positiveTotal bs := by
  induction bs with
  | nil => intro acc; simp [positiveTotal]
  | cons b rest ih =>
    intro acc
    rw [List.foldl_cons, ih (assetStep acc b), assetStep_total]
    have hsplit : positiveTotal (b :: rest) =
        (if b.usdValue ≤ 0 then 0 else b.usdValue) + positiveTotal rest := by
      by_cases h : b.usdValue ≤ 0
      · simp [positiveTotal, List.filter_cons, h, not_lt.mpr h]
      · simp [positiveTotal, List.filter_cons, h, lt_of_not_le h]
    rw [hsplit]
    ring

/-- The asset fold sees only the positive-value balances. -/
theorem foldl_assetStep_filter (bs : List UnifiedBalance) :
    ∀ acc : List (String × AssetAccum),
      bs.foldl assetStep acc =
        (bs.filter (fun b => 0 < b.usdValue)).foldl assetStep acc := by
  induction bs with
  | nil => intro acc; rfl
  | cons b rest ih =>
    intro acc
    rw [List.foldl_cons, List.filter_cons]
    by_cases h : 0 < b.usdValue
    · rw [if_pos (by simpa using h), List.foldl_cons]
      have hstep : assetStep acc b = assetInsert acc b := by
        unfold assetStep
        rw [if_neg (not_le.mpr h)]
      rw [hstep, ih]
    · rw [if_neg (by simpa using h)]
      have hstep : assetStep acc b = acc := by
        unfold assetStep
        rw [if_pos (not_lt.mp h)]
      rw [hstep, ih]

/-- One exchange fold step adds the balance's value to the map total. -/
theorem exchangeStep_total (m : List (String × ℚ)) (b : UnifiedBalance) :
    ((exchangeStep m b).map (fun ev => ev.2)).sum =
      (m.map (fun ev => ev.2)).sum + b.usdValue := by
  induction m with
  | nil => simp [exchangeStep]
  | cons x rest ih =>
    obtain ⟨e, v⟩ := x
    by_cases h : e = b.exchange
    · simp only [exchangeStep, if_pos h, List.map_cons, List.sum_cons]
      ring
    · simp only [exchangeStep, if_neg h, List.map_cons, List.sum_cons, ih]
      ring

/-- The exchange map total is the sum of every balance's value. -/
theorem foldl_exchangeStep_total (bs : List UnifiedBalance) :
    ∀ acc : List (String × ℚ),
      ((bs.foldl exchangeStep acc).map (fun ev => ev.2)).sum =
        (acc.map (fun ev => ev.2)).sum + (bs.map (fun b => b.usdValue)).sum := by
  induction bs with
  | nil => intro acc; simp
  | cons b rest ih =>
    intro acc
    rw [List.foldl_cons, ih (exchangeStep acc b), exchangeStep_total]
    simp only [List.map_cons, List.sum_cons]
    ring

/-- Distributing a common divisor and factor over a sum. -/
theorem sum_div_mul (l : List ℚ) (T : ℚ) :
    (l.map (fun t => t / T * 100)).sum = l.sum / T * 100 := by
  induction l with
  | nil => simp
  | cons t rest ih =>
    simp only [List.map_cons, List.sum_cons, ih]
    ring

/-- The sum over all balances is at most the sum over the positive ones. -/
theorem sum_le_positiveTotal (bs : List UnifiedBalance) :
    (bs.map (fun b => b.usdValue)).sum ≤ positiveTotal bs := by
  induction bs with
  | nil => simp [positiveTotal]
  | cons b rest ih =>
    by_cases h : 0 < b.usdValue
    · have hsplit : positiveTotal (b :: rest) = b.usdValue + positiveTotal rest := by
        simp [positiveTotal, List.filter_cons, h]
      simp only [List.map_cons, List.sum_cons, hsplit]
      exact add_le_add_left ih _
    · have hsplit : positiveTotal (b :: rest) = positiveTotal rest := by
        simp [positiveTotal, List.filter_cons, h]
      simp only [List.map_cons, List.sum_cons, hsplit]
      have : b.usdValue ≤ 0 := not_lt.mp h
      linarith

/-- C5 counterexample: on a single balance of usdValue −5, the asset
allocation (which does filter) is empty, but the exchange allocation still
produces the kraken group with total −5 — `calculateExchangeAllocation` does
not group only positive-usdValue balances. -/
theorem C5_counterexample :
    calculateAssetAllocation [negBal] = [] ∧
    calculateExchangeAllocation [negBal] =
      [{ exchange := "kraken", totalUsdValue := -5, percentage := 0 }] := by
  constructor
  · norm_num [calculateAssetAllocation, assetStep, sortByDesc, negBal]
  · norm_num [calculateExchangeAllocation, exchangeStep, sortByDesc, negBal]

/-- C5 (amended): `calculateAssetAllocation` groups only positive-usdValue
balances — it is invariant under dropping the rest, and is empty when no
balance has positive value — with each percentage equal to the group total
divided by the summed positive total times 100 (0 when that total is not
positive), and the asset percentages sum to exactly 100 whenever the overall
usdValue sum is positive. `calculateExchangeAllocation` instead groups every
balance, positive or not: its group totals sum to the overall usdValue sum,
with the analogous percentage formula. Both lists are sorted descending by
`totalUsdValue`. -/
theorem C5_allocations (bs : List UnifiedBalance) :
    calculateAssetAllocation bs =
      calculateAssetAllocation (bs.filter (fun b => 0 < b.usdValue)) ∧
    ((∀ b ∈ bs, b.usdValue ≤ 0) → calculateAssetAllocation bs = []) ∧
    (∀ a ∈ calculateAssetAllocation bs,
      a.percentage = if 0 < positiveTotal bs then
        a.totalUsdValue / positiveTotal bs * 100 else 0) ∧
    (0 < (bs.map (fun b => b.usdValue)).sum →
      ((calculateAssetAllocation bs).map (fun a => a.percentage)).sum = 100) ∧
    List.Pairwise (fun x y => y.totalUsdValue ≤ x.totalUsdValue)
      (calculateAssetAllocation bs) ∧
    List.Pairwise (fun x y => y.totalUsdValue ≤ x.totalUsdValue)
      (calculateExchangeAllocation bs) ∧
    ((calculateExchangeAllocation bs).map (fun e => e.totalUsdValue)).sum =
      (bs.map (fun b => b.usdValue)).sum ∧
    (∀ e ∈ calculateExchangeAllocation bs,
      e.percentage = if 0 < (bs.map (fun b => b.usdValue)).sum then
        e.totalUsdValue / (bs.map (fun b => b.usdValue)).sum * 100 else 0) := by
  have hmapTotal : ((bs.foldl assetStep []).map
      (fun ad => ad.2.totalUsdValue)).sum = positiveTotal bs := by
    rw [foldl_assetStep_total]
    simp
  have hexTotal : ((bs.foldl exchangeStep []).map (fun ev => ev.2)).sum =
      (bs.map (fun b => b.usdValue)).sum := by
    rw [foldl_exchangeStep_total]
    simp
  refine ⟨?_, ?_, ?_, ?_, ?_, ?_, ?_, ?_⟩
  · simp only [calculateAssetAllocation]
    rw [foldl_assetStep_filter]
  · intro hall
    have hnil : bs.filter (fun b => 0 < b.usdValue) = [] := by
      rw [List.filter_eq_nil_iff]
      intro b hb
      simpa using not_lt.mpr (hall b hb)
    simp only [calculateAssetAllocation]
    rw [foldl_assetStep_filter, hnil]
    rfl
  · intro a ha
    simp only [calculateAssetAllocation] at ha
    have hmem := (sortByDesc_perm
      (fun a : AssetAllocation => a.totalUsdValue) _).mem_iff.mp ha
    obtain ⟨ad, -, rfl⟩ := List.mem_map.mp hmem
    simp only [gt_iff_lt, hmapTotal]
  · intro hpos
    have hT : 0 < positiveTotal bs := lt_of_lt_of_le hpos (sum_le_positiveTotal bs)
    simp only [calculateAssetAllocation]
    have hperm := ((sortByDesc_perm (fun a => a.totalUsdValue)
      ((bs.foldl assetStep []).map (fun ad =>
        ({ asset := ad.1
           totalUsdValue := ad.2.totalUsdValue
           percentage := if ((bs.foldl assetStep []).map
               (fun ad => ad.2.totalUsdValue)).sum > 0 then
             ad.2.totalUsdValue / ((bs.foldl assetStep []).map
               (fun ad => ad.2.totalUsdValue)).sum * 100 else 0
           exchanges := ad.2.exchanges } : AssetAllocation)))).map
      (fun a => a.percentage)).sum_eq
    rw [hperm, List.map_map]
    have hcomp : ((fun a => a.percentage) ∘ (fun ad =>
        ({ asset := ad.1
           totalUsdValue := ad.2.totalUsdValue
           percentage := if ((bs.foldl assetStep []).map
               (fun ad => ad.2.totalUsdValue)).sum > 0 then
             ad.2.totalUsdValue / ((bs.foldl assetStep []).map
               (fun ad => ad.2.totalUsdValue)).sum * 100 else 0
           exchanges := ad.2.exchanges } : AssetAllocation))) =
        fun ad : String × AssetAccum => ad.2.totalUsdValue / positiveTotal bs * 100 := by
      funext ad
      simp only [Function.comp_apply, gt_iff_lt, hmapTotal, if_pos hT]
    rw [hcomp, show (fun ad : String × AssetAccum =>
        ad.2.totalUsdValue / positiveTotal bs * 100) =
        ((fun t => t / positiveTotal bs * 100) ∘
          (fun ad : String × AssetAccum => ad.2.totalUsdValue)) from rfl,
      ← List.map_map, sum_div_mul, hmapTotal, div_self (ne_of_gt hT)]
    norm_num
  · simp only [calculateAssetAllocation]
    exact sortByDesc_sorted _ _
  · simp only [calculateExchangeAllocation]
    exact sortByDesc_sorted _ _
  · simp only [calculateExchangeAllocation]
    have hperm := ((sortByDesc_perm (fun a => a.totalUsdValue)
      ((bs.foldl exchangeStep []).map (fun ev =>
        ({ exchange := ev.1
           totalUsdValue := ev.2
           percentage := if ((bs.foldl exchangeStep []).map
               (fun ev => ev.2)).sum > 0 then
             ev.2 / ((bs.foldl exchangeStep []).map (fun ev => ev.2)).sum * 100
           else 0 } : ExchangeAllocation)))).map
      (fun e => e.totalUsdValue)).sum_eq
    rw [hperm, List.map_map]
    have hcomp : ((fun e => e.totalUsdValue) ∘ (fun ev =>
        ({ exchange := ev.1
           totalUsdValue := ev.2
           percentage := if ((bs.foldl exchangeStep []).map
               (fun ev => ev.2)).sum > 0 then
             ev.2 / ((bs.foldl exchangeStep []).map (fun ev => ev.2)).sum * 100
           else 0 } : ExchangeAllocation))) =
        fun ev : String × ℚ => ev.2 := by
      funext ev
      simp
    rw [hcomp, hexTotal]
  · intro e he
    simp only [calculateExchangeAllocation] at he
    have hmem := (sortByDesc_perm
      (fun a : ExchangeAllocation => a.totalUsdValue) _).mem_iff.mp he
    obtain ⟨ev, -, rfl⟩ := List.mem_map.mp hmem
    simp only [gt_iff_lt, hexTotal]

/-- C5 witness: on the USDT/BTC fixture the asset percentages sum to
exactly 100, and the all-negative list yields an empty asset allocation. -/
theorem C5_allocations_witness :
    ((calculateAssetAllocation [usdtTestBal, btcZeroBal]).map
      (fun a => a.percentage)).sum = 100 ∧
    calculateAssetAllocation [negBal] = [] := by
  constructor
  · exact (C5_allocations [usdtTestBal, btcZeroBal]).2.2.2.1
      (by norm_num [usdtTestBal, btcZeroBal])
  · refine (C5_allocations [negBal]).2.1 ?_
    intro b hb
    simp only [List.mem_singleton] at hb
    subst hb
    norm_num [negBal]


/-! ## C7: the 24h change -/

/-- The manager's `previousSnapshot` expression is exactly the last stored
snapshot. -/
theorem managerPreviousSnapshot_eq_getLast (l : List PortfolioSnapshot) :
    managerPreviousSnapshot l = l.getLast? := by
  unfold managerPreviousSnapshot
  split_ifs with h
  · exact (List.getLast?_eq_getElem? l).symm
  · cases l with
    | nil => rfl
    | cons a t => simp at h

/-- C7: `createSnapshot` defines `change24h` exactly when a previous snapshot
is supplied whose age is at most 24 hours, computing it from the new
`totalNetEquity` relative to that snapshot's equity (0 when the previous
equity is not positive); with no previous snapshot, or one older than 24
hours, `change24h` is `undefined` whatever the equities are. The portfolio
manager passes exactly the most recent stored snapshot as the previous
one. -/
theorem C7_change24h (now : ℤ) (balances : List UnifiedBalance)
    (positions : List UnifiedPosition) (orders : List (RawOrder × String))
    (trades : List UnifiedTrade) :
    ((createSnapshot now balances positions orders trades none).change24h = none) ∧
    (∀ prev : PortfolioSnapshot, 24 * 60 * 60 * 1000 < now - prev.timestamp →
      (createSnapshot now balances positions orders trades (some prev)).change24h =
        none) ∧
    (∀ prev : PortfolioSnapshot, now - prev.timestamp ≤ 24 * 60 * 60 * 1000 →
      (createSnapshot now balances positions orders trades (some prev)).change24h =
        some (if 0 < prev.totalNetEquity then
          ((createSnapshot now balances positions orders trades
              (some prev)).totalNetEquity - prev.totalNetEquity) /
            prev.totalNetEquity * 100
        else 0)) ∧
    (∀ snapshots : List PortfolioSnapshot,
      managerPreviousSnapshot snapshots = snapshots.getLast?) := by
  refine ⟨rfl, ?_, ?_, managerPreviousSnapshot_eq_getLast⟩
  · intro prev hage
    simp only [createSnapshot]
    rw [if_neg (not_le.mpr hage)]
  · intro prev hage
    simp only [createSnapshot, gt_iff_lt]
    rw [if_pos hage]

/-- C7 witness: a previous snapshot taken 25 hours (90 000 000 ms) earlier
with equity 500 leaves `change24h` undefined on the new $1000 snapshot, while
the same snapshot taken one second earlier defines it. -/
theorem C7_change24h_witness :
    (createSnapshot 90000000 [usdtTestBal] [] [] []
      (some (snapFixture 0 500))).change24h = none ∧
    (createSnapshot 1000 [usdtTestBal] [] [] []
      (some (snapFixture 0 500))).change24h =
      some ((createSnapshot 1000 [usdtTestBal] [] [] []
        (some (snapFixture 0 500))).totalNetEquity / 500 * 100 - 100) := by
  constructor
  · exact (C7_change24h 90000000 [usdtTestBal] [] [] []).2.1
      (snapFixture 0 500) (by norm_num [snapFixture])
  · have h := (C7_change24h 1000 [usdtTestBal] [] [] []).2.2.1
      (snapFixture 0 500) (by norm_num [snapFixture])
    rw [h]
    have hpos : (0:ℚ) < (snapFixture 0 500).totalNetEquity := by
      norm_num [snapFixture]
    rw [if_pos hpos]
    congr 1
    show _ = _
    norm_num [snapFixture]
    ring


/-! ## C3: per-connector failure tolerance of the snapshot fan-out -/

/-- A string-key group of the aggregate is preserved from its input. -/
theorem aggregateBalances_keyGroupSum (l : List UnifiedBalance) (k : String) :
    keyGroupSum (aggregateBalances l) k = keyGroupSum l k := by
  unfold aggregateBalances
  rw [foldl_aggStep_keyGroupSum]
  simp [keyGroupSum]

/-- The aggregate has exactly one entry per string key of its input. -/
theorem aggregateBalances_keyCount (l : List UnifiedBalance) (k : String) :
    keyCount (aggregateBalances l) k = if 0 < keyCount l k then 1 else 0 := by
  unfold aggregateBalances
  rw [foldl_aggStep_keyCount l [] (fun k2 => by simp [keyCount]) k]
  simp [keyCount]

/-- Every input balance is represented in the aggregate by the entry under
its key, which carries the whole key group's value. -/
theorem aggregateBalances_represents (l : List UnifiedBalance)
    (b : UnifiedBalance) (hb : b ∈ l) :
    ∃ ub ∈ aggregateBalances l, balanceKey ub = balanceKey b ∧
      ub.usdValue = keyGroupSum l (balanceKey b) := by
  have hcount : keyCount l (balanceKey b) ≠ 0 := by
    unfold keyCount
    have hmem : b ∈ l.filter (fun x => decide (balanceKey x = balanceKey b)) :=
      List.mem_filter.mpr ⟨hb, by simp⟩
    intro hlen
    rw [List.length_eq_zero] at hlen
    rw [hlen] at hmem
    exact List.not_mem_nil b hmem
  have h1 : keyCount (aggregateBalances l) (balanceKey b) = 1 := by
    rw [aggregateBalances_keyCount]
    rw [if_pos (Nat.pos_of_ne_zero hcount)]
  obtain ⟨ub, hub⟩ := List.length_eq_one.mp h1
  have hubmem : ub ∈ (aggregateBalances l).filter
      (fun x => decide (balanceKey x = balanceKey b)) := by
    rw [hub]
    exact List.mem_singleton_self ub
  obtain ⟨hmem, hkey⟩ := List.mem_filter.mp hubmem
  refine ⟨ub, hmem, by simpa using hkey, ?_⟩
  rw [← aggregateBalances_keyGroupSum l (balanceKey b)]
  unfold keyGroupSum
  rw [hub]
  simp

/-- C3: one connector's fetch failure never excludes the others — for every
connector whose three fetches succeed, every one of its normalized positions
appears in the returned snapshot, and every one of its normalized balances is
represented in the snapshot's aggregated balances by the entry under its key,
carrying that key group's total collected value, regardless of how the other
connectors fail. -/
theorem C3_fetchPortfolioSnapshot (now : ℤ)
    (connectors : List ExchangeConnectorStub)
    (snapshots : List PortfolioSnapshot) (maxSnapshots : ℕ) :
    ∀ c ∈ connectors, ∀ rbs rps ros,
      c.fetchBalances = Except.ok rbs →
      c.fetchPositions = Except.ok rps →
      c.fetchOpenOrders = Except.ok ros →
      (∀ rp ∈ rps, normalizePosition rp c.exchangeName now ∈
        (fetchPortfolioSnapshot now connectors snapshots maxSnapshots).1.positions) ∧
      (∀ rb ∈ rbs,
        ∃ ub ∈ (fetchPortfolioSnapshot now connectors snapshots
            maxSnapshots).1.balances,
          balanceKey ub = balanceKey
            (normalizeBalance rb c.exchangeName (getUsdPrice rb.asset) now) ∧
          ub.usdValue = keyGroupSum (collectedBalances now connectors)
            (balanceKey
              (normalizeBalance rb c.exchangeName (getUsdPrice rb.asset) now))) := by
  intro c hc rbs rps ros hb hp ho
  have hfetch : connectorFetch now c =
      (rbs.map (fun rb => normalizeBalance rb c.exchangeName (getUsdPrice rb.asset) now),
       rps.map (fun rp => normalizePosition rp c.exchangeName now),
       ros.map (fun o => (o, c.exchangeName))) := by
    unfold connectorFetch
    rw [hb, hp, ho]
  have hpos : (fetchPortfolioSnapshot now connectors snapshots
      maxSnapshots).1.positions = collectedPositions now connectors := rfl
  have hbal : (fetchPortfolioSnapshot now connectors snapshots
      maxSnapshots).1.balances =
      aggregateBalances (collectedBalances now connectors) := rfl
  constructor
  · intro rp hrp
    rw [hpos]
    unfold collectedPositions
    rw [List.mem_flatten]
    refine ⟨(connectorFetch now c).2.1, List.mem_map_of_mem _ hc, ?_⟩
    rw [hfetch]
    exact List.mem_map_of_mem _ hrp
  · intro rb hrb
    have hmem : normalizeBalance rb c.exchangeName (getUsdPrice rb.asset) now ∈
        collectedBalances now connectors := by
      unfold collectedBalances
      rw [List.mem_flatten]
      refine ⟨(connectorFetch now c).1, List.mem_map_of_mem _ hc, ?_⟩
      rw [hfetch]
      exact List.mem_map_of_mem _ hrb
    obtain ⟨ub, hubmem, hkey, hval⟩ :=
      aggregateBalances_represents (collectedBalances now connectors) _ hmem
    exact ⟨ub, by rw [hbal]; exact hubmem, hkey, hval⟩

/-- C3 witness: with the failing bybit connector first, the snapshot still
carries an aggregated entry for the healthy connector's normalized USDT
balance with its full value. -/
theorem C3_fetchPortfolioSnapshot_witness :
    ∃ ub ∈ (fetchPortfolioSnapshot 0 [badConn, goodConn] [] 1000).1.balances,
      balanceKey ub = balanceKey (normalizeBalance
        { asset := "USDT", free := 7, locked := 1 } "binance"
        (getUsdPrice "USDT") 0) ∧
      ub.usdValue = keyGroupSum (collectedBalances 0 [badConn, goodConn])
        (balanceKey (normalizeBalance
          { asset := "USDT", free := 7, locked := 1 } "binance"
          (getUsdPrice "USDT") 0)) := by
  have h := (C3_fetchPortfolioSnapshot 0 [badConn, goodConn] [] 1000
    goodConn (by simp) [{ asset := "USDT", free := 7, locked := 1 }] [] []
    rfl rfl rfl).2
  exact h { asset := "USDT", free := 7, locked := 1 } (List.mem_singleton_self _)


/-! ## C10: emitAlert isolates callback failures -/

/-- C10: `emitAlert` invokes every registered callback exactly once, in
order, each under its own catch — the outcome list is the pointwise run of
the callbacks, so an earlier callback's throw never suppresses a later
callback, and the total return type shows no exception escapes. -/
theorem C10_emitAlert (callbacks : List (AlertEvent → Except String Unit))
    (alert : AlertEvent) :
    emitAlert callbacks alert =
      callbacks.map (fun callback => runAlertCallback callback alert) ∧
    (emitAlert callbacks alert).length = callbacks.length := by
  have hmap : ∀ cbs : List (AlertEvent → Except String Unit),
      emitAlert cbs alert = cbs.map (fun cb => runAlertCallback cb alert) := by
    intro cbs
    induction cbs with
    | nil => rfl
    | cons cb rest ih => simp [emitAlert, ih]
  exact ⟨hmap callbacks, by rw [hmap callbacks]; simp⟩

/-! ## C8: RealtimeMonitor.processSnapshot -/

/-- A `Map.set` leaves the lookups of every other key unchanged. -/
theorem mapSet_lookup_ne {β : Type} (m : List (String × β)) (k k2 : String)
    (v : β) (h : k2 ≠ k) :
    List.lookup k2 (mapSet m k v) = List.lookup k2 m := by
  have hbeq : (k2 == k) = false := beq_eq_false_iff_ne.mpr h
  induction m with
  | nil => simp [mapSet, List.lookup, hbeq]
  | cons x rest ih =>
    obtain ⟨k3, v3⟩ := x
    by_cases h3 : k3 = k
    · subst h3
      simp [mapSet, List.lookup, hbeq]
    · simp only [mapSet, if_neg h3, List.lookup]
      cases hcase : (k2 == k3) with
      | true => rfl
      | false => exact ih

/-- A fired balance alert is a `large_balance_change`. -/
theorem balanceAlert_type (now : ℤ) (previous balance : UnifiedBalance)
    (a : AlertEvent) (h : balanceAlert now previous balance = some a) :
    a.type = AlertType.large_balance_change := by
  simp only [balanceAlert] at h
  by_cases hc : |balance.usdValue - previous.usdValue| ≥
      configAlerts.largeBalanceChangeThreshold
  · rw [if_pos hc] at h
    cases h
    rfl
  · rw [if_neg hc] at h
    cases h

/-- Every alert of the balance scan is a `large_balance_change`. -/
theorem checkBalanceChanges_type (now : ℤ) (balances : List UnifiedBalance) :
    ∀ (prev : List (String × UnifiedBalance)) (a : AlertEvent),
      a ∈ (checkBalanceChanges now prev balances).2 →
      a.type = AlertType.large_balance_change := by
  induction balances with
  | nil => intro prev a ha; simp [checkBalanceChanges] at ha
  | cons balance rest ih =>
    intro prev a ha
    simp only [checkBalanceChanges, List.mem_append] at ha
    rcases ha with ha | ha
    · rcases hl : List.lookup (balanceKey balance) prev with _ | previous
      · rw [hl] at ha
        simp at ha
      · rw [hl] at ha
        have ha2 : a ∈ (balanceAlert now previous balance).toList := ha
        rcases hb : balanceAlert now previous balance with _ | x
        · rw [hb] at ha2
          simp at ha2
        · rw [hb] at ha2
          simp only [Option.toList_some, List.mem_singleton] at ha2
          subst ha2
          exact balanceAlert_type now previous balance a hb
    · exact ih _ a ha

/-- Every alert of the position scan is a `large_position_opening`. -/
theorem checkLargePositions_type (now : ℤ) (positions : List UnifiedPosition) :
    ∀ (prev : List (String × UnifiedPosition)) (a : AlertEvent),
      a ∈ (checkLargePositions now prev positions).2 →
      a.type = AlertType.large_position_opening := by
  induction positions with
  | nil => intro prev a ha; simp [checkLargePositions] at ha
  | cons position rest ih =>
    intro prev a ha
    simp only [checkLargePositions, List.mem_append] at ha
    rcases ha with ha | ha
    · rcases hl : List.lookup (positionKey position) prev with _ | previous
      · rw [hl] at ha
        split_ifs at ha with h1
        · simp only [List.mem_singleton] at ha
          subst ha
          rfl
        · simp at ha
      · rw [hl] at ha
        simp at ha
    · exact ih _ a ha

/-- Every alert of the drawdown check is a `rapid_drawdown`. -/
theorem checkRapidDrawdown_type (now : ℤ) (previousEquity : ℚ)
    (snapshot : PortfolioSnapshot) (a : AlertEvent)
    (ha : a ∈ checkRapidDrawdown now previousEquity snapshot) :
    a.type = AlertType.rapid_drawdown := by
  simp only [checkRapidDrawdown] at ha
  by_cases h1 : previousEquity > 0
  · rw [if_pos h1] at ha
    by_cases h2 : (snapshot.totalNetEquity - previousEquity) / previousEquity ≤
        configAlerts.rapidDrawdownThreshold
    · rw [if_pos h2] at ha
      simp only [List.mem_singleton] at ha
      subst ha
      rfl
    · rw [if_neg h2] at ha
      simp at ha
  · rw [if_neg h1] at ha
    simp at ha

/-- With pairwise-distinct balance keys, the balance scan emits exactly the
alerts computed against the map it started from. -/
theorem checkBalanceChanges_nodup (now : ℤ) (balances : List UnifiedBalance) :
    ∀ prev : List (String × UnifiedBalance),
      (balances.map balanceKey).Nodup →
      (checkBalanceChanges now prev balances).2 =
        balances.filterMap (fun b =>
          match List.lookup (balanceKey b) prev with
          | some previous => balanceAlert now previous b
          | none => none) := by
  induction balances with
  | nil => intro prev hnd; rfl
  | cons balance rest ih =>
    intro prev hnd
    simp only [List.map_cons, List.nodup_cons] at hnd
    obtain ⟨hnotin, hnd2⟩ := hnd
    simp only [checkBalanceChanges]
    rw [ih (mapSet prev (balanceKey balance) balance) hnd2]
    have hcongr : rest.filterMap (fun b =>
        match List.lookup (balanceKey b)
          (mapSet prev (balanceKey balance) balance) with
        | some previous => balanceAlert now previous b
        | none => none) =
        rest.filterMap (fun b =>
          match List.lookup (balanceKey b) prev with
          | some previous => balanceAlert now previous b
          | none => none) := by
      apply List.filterMap_congr
      intro b hb
      have hne : balanceKey b ≠ balanceKey balance := by
        intro he
        exact hnotin (he ▸ List.mem_map_of_mem balanceKey hb)
      rw [mapSet_lookup_ne prev (balanceKey balance) (balanceKey b) balance hne]
    rw [hcongr, List.filterMap_cons]
    rcases hl : List.lookup (balanceKey balance) prev with _ | previous
    · simp
    · rcases hb : balanceAlert now previous balance with _ | x <;> simp [hb]

/-- C8 (amended): the monitor's prior-balance records are replaced per entry
during the scan, so comparisons are guaranteed to be against the prior
cycle's state only when the snapshot's balance keys are pairwise distinct: in
that case the emitted `large_balance_change` alerts are exactly those
computed against the pre-call state, and balances with no prior record emit
none. A fired alert is critical exactly when the percentage change (0 when
the prior value is not positive) exceeds 50, fires exactly when `|Δusd|`
reaches the threshold, and the recorded equity is replaced after all
checks with the snapshot's. -/
theorem C8_processSnapshot (now : ℤ) (st : MonitorState)
    (snapshot : PortfolioSnapshot) :
    ((snapshot.balances.map balanceKey).Nodup →
      (processSnapshot now st snapshot).2.filter
        (fun a => a.type = AlertType.large_balance_change) =
        snapshot.balances.filterMap (fun b =>
          match List.lookup (balanceKey b) st.previousBalances with
          | some previous => balanceAlert now previous b
          | none => none)) ∧
    ((snapshot.balances.map balanceKey).Nodup →
      (∀ b ∈ snapshot.balances,
        List.lookup (balanceKey b) st.previousBalances = none) →
      (processSnapshot now st snapshot).2.filter
        (fun a => a.type = AlertType.large_balance_change) = []) ∧
    (∀ previous balance : UnifiedBalance,
      (balanceAlert now previous balance = none ↔
        |balance.usdValue - previous.usdValue| <
          configAlerts.largeBalanceChangeThreshold) ∧
      (∀ a, balanceAlert now previous balance = some a →
        a.type = AlertType.large_balance_change ∧
        (a.severity = AlertSeverity.critical ↔
          (if previous.usdValue > 0 then
            |balance.usdValue - previous.usdValue| / previous.usdValue * 100
          else 0) > 50))) ∧
    (processSnapshot now st snapshot).1.previousEquity =
      snapshot.totalNetEquity := by
  have hfilter : ∀ hnd : (snapshot.balances.map balanceKey).Nodup,
      (processSnapshot now st snapshot).2.filter
        (fun a => a.type = AlertType.large_balance_change) =
        snapshot.balances.filterMap (fun b =>
          match List.lookup (balanceKey b) st.previousBalances with
          | some previous => balanceAlert now previous b
          | none => none) := by
    intro hnd
    have hsplit : (processSnapshot now st snapshot).2 =
        (checkBalanceChanges now st.previousBalances snapshot.balances).2 ++
        ((checkLargePositions now st.previousPositions snapshot.positions).2 ++
          checkRapidDrawdown now st.previousEquity snapshot) := by
      simp [processSnapshot]
    rw [hsplit, List.filter_append, List.filter_append]
    have h1 : (checkBalanceChanges now st.previousBalances
        snapshot.balances).2.filter
        (fun a => a.type = AlertType.large_balance_change) =
        (checkBalanceChanges now st.previousBalances snapshot.balances).2 := by
      rw [List.filter_eq_self]
      intro a ha
      simp [checkBalanceChanges_type now snapshot.balances
        st.previousBalances a ha]
    have h2 : (checkLargePositions now st.previousPositions
        snapshot.positions).2.filter
        (fun a => a.type = AlertType.large_balance_change) = [] := by
      rw [List.filter_eq_nil_iff]
      intro a ha
      simp [checkLargePositions_type now snapshot.positions
        st.previousPositions a ha]
    have h3 : (checkRapidDrawdown now st.previousEquity snapshot).filter
        (fun a => a.type = AlertType.large_balance_change) = [] := by
      rw [List.filter_eq_nil_iff]
      intro a ha
      simp [checkRapidDrawdown_type now st.previousEquity snapshot a ha]
    rw [h1, h2, h3, List.append_nil, List.append_nil]
    exact checkBalanceChanges_nodup now snapshot.balances st.previousBalances hnd
  refine ⟨hfilter, ?_, ?_, rfl⟩
  · intro hnd hnone
    rw [hfilter hnd]
    rw [List.filterMap_eq_nil_iff]
    intro b hb
    rw [hnone b hb]
  · intro previous balance
    constructor
    · simp only [balanceAlert]
      by_cases hc : |balance.usdValue - previous.usdValue| ≥
          configAlerts.largeBalanceChangeThreshold
      · rw [if_pos hc]
        simp only [not_lt.mpr hc]
        constructor
        · intro h
          cases h
        · intro h
          exact absurd h (by simp [not_lt.mpr hc])
      · rw [if_neg hc]
        simp [lt_of_not_le (fun hle => hc hle)]
    · intro a ha
      refine ⟨balanceAlert_type now previous balance a ha, ?_⟩
      simp only [balanceAlert] at ha
      by_cases hc : |balance.usdValue - previous.usdValue| ≥
          configAlerts.largeBalanceChangeThreshold
      · rw [if_pos hc] at ha
        cases ha
        by_cases hp : (if previous.usdValue > 0 then
            |balance.usdValue - previous.usdValue| / previous.usdValue * 100
          else 0) > 50
        · simp [hp]
        · simp [hp]
      · rw [if_neg hc] at ha
        cases ha

/-- C8 counterexample: on a fresh monitor — no balance of the snapshot has
any prior record — a snapshot holding two same-key balance entries still
emits a `large_balance_change` alert, because the recorded state is replaced
per entry during the scan, not after all checks: the second entry compares
against the first entry of the same cycle. -/
theorem C8_counterexample :
    (∀ b ∈ dupKeySnapshot.balances,
      List.lookup (balanceKey b) monitorInitState.previousBalances = none) ∧
    (processSnapshot 5 monitorInitState dupKeySnapshot).2.filter
      (fun a => a.type = AlertType.large_balance_change) ≠ [] := by
  constructor
  · intro b _
    rfl
  · have hge : |btcBal20100.usdValue - btcBal100.usdValue| ≥
        configAlerts.largeBalanceChangeThreshold := by
      norm_num [btcBal100, btcBal20100, configAlerts]
    have hsome : ∃ a, balanceAlert 5 btcBal100 btcBal20100 = some a := by
      simp only [balanceAlert]
      rw [if_pos hge]
      exact ⟨_, rfl⟩
    obtain ⟨a, ha⟩ := hsome
    have htype := balanceAlert_type 5 btcBal100 btcBal20100 a ha
    simp only [processSnapshot, dupKeySnapshot, monitorInitState,
      checkBalanceChanges, checkLargePositions, checkRapidDrawdown, mapSet,
      List.lookup, balanceKey, btcBal100, btcBal20100]
    intro hcontra
    simp at hcontra
    exact hcontra _ ha htype

/-- C8 witness: a BTC balance jumping from $100 in the prior cycle to $20100
(Δ = $20000 ≥ $10000, Δ% = 20000% > 50) emits exactly one
`large_balance_change` alert, with severity critical. -/
theorem C8_processSnapshot_witness :
    ∃ a, (processSnapshot 5 monitorBtcState btcJumpSnapshot).2.filter
        (fun x => x.type = AlertType.large_balance_change) = [a] ∧
      a.type = AlertType.large_balance_change ∧
      a.severity = AlertSeverity.critical := by
  have h := C8_processSnapshot 5 monitorBtcState btcJumpSnapshot
  have hfil := h.1 (by simp [btcJumpSnapshot])
  have hlk : List.lookup (balanceKey btcBal20100)
      monitorBtcState.previousBalances = some btcBal100 := rfl
  have hnotnone : balanceAlert 5 btcBal100 btcBal20100 ≠ none := by
    intro hn
    have hlt := (h.2.2.1 btcBal100 btcBal20100).1.mp hn
    norm_num [btcBal100, btcBal20100, configAlerts] at hlt
  obtain ⟨a, ha⟩ := Option.ne_none_iff_exists'.mp hnotnone
  have hsev := (h.2.2.1 btcBal100 btcBal20100).2 a ha
  refine ⟨a, ?_, hsev.1, hsev.2.mpr (by norm_num [btcBal100, btcBal20100])⟩
  rw [hfil]
  simp only [show btcJumpSnapshot.balances = [btcBal20100] from rfl,
    List.filterMap_cons, List.filterMap_nil, hlk, ha]


/-! ## C9: deterministic request signing -/

/-- A `Map`/object set makes its entry present. -/
theorem mapSet_mem_self {β : Type} (m : List (String × β)) (k : String) (v : β) :
    (k, v) ∈ mapSet m k v := by
  induction m with
  | nil => exact List.mem_singleton_self _
  | cons x rest ih =>
    obtain ⟨k2, v2⟩ := x
    by_cases h : k2 = k
    · simp [mapSet, h]
    · simp only [mapSet, if_neg h]
      exact List.mem_cons_of_mem _ ih

/-- A set under a different key preserves an entry. -/
theorem mapSet_mem_preserve {β : Type} (m : List (String × β)) (k k1 : String)
    (v v1 : β) (hmem : (k1, v1) ∈ m) (hne : k1 ≠ k) :
    (k1, v1) ∈ mapSet m k v := by
  induction m with
  | nil => simp at hmem
  | cons x rest ih =>
    obtain ⟨k2, v2⟩ := x
    rcases List.mem_cons.mp hmem with heq | htail
    · have hk : k2 ≠ k := by
        intro h
        apply hne
        rw [show k1 = k2 from (Prod.mk.injEq _ _ _ _ ▸ heq).1, h]
      simp only [mapSet, if_neg hk]
      exact List.mem_cons.mpr (Or.inl heq)
    · by_cases h : k2 = k
      · simp only [mapSet, if_pos h]
        exact List.mem_cons_of_mem _ htail
      · simp only [mapSet, if_neg h]
        exact List.mem_cons_of_mem _ (ih htail)

/-- The sorted entry list is a permutation of the present entries. -/
theorem sortedEntries_perm (params : List (String × JSVal)) :
    (sortedEntries params).Perm (presentEntries params) :=
  List.perm_insertionSort _ _

/-- C9: the authenticated-request signing is deterministic — identical
(secret, params, timestamp) produce a byte-identical signed query string —
and structurally the signed query is the canonical query string followed by
`&signature=` and the lowercase hex HMAC-SHA256 of exactly that string keyed
by the account secret, where the canonical string serializes the
present entries sorted by the modelled `localeCompare` key order and always
carries the `timestamp` and `recvWindow=5000` parameters. -/
theorem C9_authSignedQuery :
    (∀ (s1 s2 : String) (p1 p2 : List (String × JSVal)) (t1 t2 : ℤ),
      s1 = s2 → p1 = p2 → t1 = t2 →
      authSignedQuery s1 p1 t1 = authSignedQuery s2 p2 t2) ∧
    (∀ (s : String) (p : List (String × JSVal)) (t : ℤ),
      authSignedQuery s p t =
        buildQueryString (authQueryParams p t) ++ "&signature=" ++
          bytesToHex (hmacSha256 (utf8Bytes s)
            (utf8Bytes (buildQueryString (authQueryParams p t))))) ∧
    (∀ (p : List (String × JSVal)) (t : ℤ),
      List.Pairwise (fun a b : String × JSVal =>
        localeSortKey a.1 ≤ localeSortKey b.1)
        (sortedEntries (authQueryParams p t)) ∧
      ("timestamp", JSVal.vnum t) ∈ sortedEntries (authQueryParams p t) ∧
      ("recvWindow", JSVal.vnum 5000) ∈ sortedEntries (authQueryParams p t)) := by
  refine ⟨?_, ?_, ?_⟩
  · intro s1 s2 p1 p2 t1 t2 hs hp ht
    rw [hs, hp, ht]
  · intro s p t
    rfl
  · intro p t
    refine ⟨?_, ?_, ?_⟩
    · haveI : IsTotal (String × JSVal)
          (fun a b => localeSortKey a.1 ≤ localeSortKey b.1) :=
        ⟨fun a b => le_total (localeSortKey a.1) (localeSortKey b.1)⟩
      haveI : IsTrans (String × JSVal)
          (fun a b => localeSortKey a.1 ≤ localeSortKey b.1) :=
        ⟨fun _ _ _ h1 h2 => le_trans h1 h2⟩
      exact List.sorted_insertionSort _ _
    · refine (sortedEntries_perm _).mem_iff.mpr ?_
      refine List.mem_filter.mpr ⟨?_, by simp⟩
      exact mapSet_mem_preserve _ _ _ _ _
        (mapSet_mem_self p "timestamp" (JSVal.vnum t)) (by simp)
    · refine (sortedEntries_perm _).mem_iff.mpr ?_
      refine List.mem_filter.mpr ⟨?_, by simp⟩
      exact mapSet_mem_self _ "recvWindow" (JSVal.vnum 5000)

/-- C9 witness: the determinism instance at a concrete secret, parameter
list and timestamp. -/
theorem C9_authSignedQuery_witness :
    authSignedQuery "secret" [("symbol", JSVal.vstr "BTCUSDT")] 1700000000000 =
      authSignedQuery "secret" [("symbol", JSVal.vstr "BTCUSDT")] 1700000000000 ∧
    ("timestamp", JSVal.vnum 1700000000000) ∈
      sortedEntries (authQueryParams [("symbol", JSVal.vstr "BTCUSDT")]
        1700000000000) := by
  constructor
  · exact C9_authSignedQuery.1 "secret" "secret"
      [("symbol", JSVal.vstr "BTCUSDT")] [("symbol", JSVal.vstr "BTCUSDT")]
      1700000000000 1700000000000 rfl rfl rfl
  · exact (C9_authSignedQuery.2.2 [("symbol", JSVal.vstr "BTCUSDT")]
      1700000000000).2.1

end Engine
